import Mathlib

/-!
Verification of the metadata normalization and entity/frequency resolution
pipeline of the UN80 SG-reports survey repository.

All definitions below are shallow embeddings of the Python source:
  * `src/python/util/metadata_cleaning.py` (symbol tokenizer, shape enforcement),
  * `src/python/06_calculate_frequencies.py` (frequency estimator),
  * `src/python/02_populate_reporting_entities.py` (fuzzy title matcher,
    including the behaviour of `difflib.SequenceMatcher.ratio`),
  * `src/python/util/metadata_link_extraction.py` (resolution-reference
    extraction, including the behaviour of the `re` patterns it uses),
  * `src/python/get_reports.py` (document-category inference).

Strings are modelled as `List Char` where character-level computation matters
and as `String` elsewhere.  Python floats are modelled as `Rat`: every numeric
quantity compared in the relevant code (`total/unique`, `0.4 * unique`,
`SequenceMatcher.ratio`, the 0.8 threshold) is a small rational, and for the
magnitudes reachable here the float comparisons in the source agree exactly
with exact rational comparison, because the quantities compared are separated
by far more than one double ulp.

The file is organised as: all definitions first, then all theorems.
-/

/-! # Definitions -/

/-! ## Order-preserving dedup (Python seen-set / `dict.fromkeys` idiom) -/

/-- Worker for `dedupe_list_preserve_order`: the seen-set loop of the Python
helper `_dedupe_list_preserve_order` in `metadata_cleaning.py`. -/
def dedupeGo {α : Type} [DecidableEq α] : List α → List α → List α
  | [], _ => []
  | x :: xs, seen =>
    if x ∈ seen then dedupeGo xs seen else x :: dedupeGo xs (x :: seen)

/-- `_dedupe_list_preserve_order` from `metadata_cleaning.py`: remove duplicate
elements keeping the first occurrence of each. The same first-occurrence dedup
idiom (`seen = set(); [x for x in l if not (x in seen or seen.add(x))]`,
`dict.fromkeys`, `Counter` key order) recurs throughout the repository. -/
def dedupePreserveOrder {α : Type} [DecidableEq α] (l : List α) : List α :=
  dedupeGo l []

/-! ## Symbol Tokenizer (`_split_symbol_with_separators` in `metadata_cleaning.py`) -/

/-- `SYMBOL_SEPARATORS` from `metadata_cleaning.py`. -/
def SYMBOL_SEPARATORS : List Char := ['/', '(', ')', '[', ']', '-', '.', ' ']

/-- Whether a character is one of the fixed symbol separators. -/
def isSymbolSep (c : Char) : Bool := SYMBOL_SEPARATORS.contains c

/-- Worker embedding `re.split` with a capture group that alternates over the
single separator characters: the string is cut at every separator character,
producing content-run, separator, content-run, ... (content runs may be empty
here; they are filtered afterwards exactly as in the source). `acc` is the
reversed current content run. -/
def splitSymbolAux : List Char → List Char → List (List Char)
  | [], acc => [acc.reverse]
  | c :: cs, acc =>
    if isSymbolSep c then acc.reverse :: [c] :: splitSymbolAux cs []
    else splitSymbolAux cs (c :: acc)

/-- `_split_symbol_with_separators` from `metadata_cleaning.py`: a missing
(`pd.isna`) symbol gives `[]`; otherwise split on the separator pattern keeping
the separators, then drop empty parts. -/
def split_symbol_with_separators : Option (List Char) → List (List Char)
  | none => []
  | some s => (splitSymbolAux s []).filter (fun t => !t.isEmpty)

/-- A token that is a single separator character. -/
def IsSepToken (t : List Char) : Prop := ∃ c, t = [c] ∧ isSymbolSep c = true

/-! ## Frequency Estimator (`calculate_frequency` in `06_calculate_frequencies.py`) -/

/-- Insert `x` into a descending-sorted list, keeping it descending. -/
def insertDesc (x : Int) : List Int → List Int
  | [] => [x]
  | y :: ys => if y ≤ x then x :: y :: ys else y :: insertDesc x ys

/-- Python `sorted(·, reverse=True)`: sort a list of years descending.  It is
only ever applied to deduplicated lists (`sorted(set(years), reverse=True)`),
on which every correct sort produces the same output. -/
def sortDesc (l : List Int) : List Int := l.foldr insertDesc []

/-- Consecutive gaps `gap[i] = year[i] - year[i+1]` of a (descending) list, as
in `[sorted_years[i] - sorted_years[i + 1] for i in range(len(sorted_years) - 1)]`. -/
def gapsOf : List Int → List Int
  | x :: y :: rest => (x - y) :: gapsOf (y :: rest)
  | _ => []

/-- The weighted gap multiset: the i-th gap is repeated `max 1 (3 - i)` times
(`weight = max(1, 3 - i)`, i.e. weights 3, 2, 1, 1, ...). -/
def weightedGaps (l : List Int) : List Int :=
  (l.enum.map (fun p => List.replicate (max 1 (3 - p.1)) p.2)).flatten

/-- `Counter(l).most_common(1)[0][0]`: the most frequent element of `l`; among
equally frequent elements the one whose first occurrence in `l` is earliest
wins (`Counter` keys are in first-occurrence order and `most_common` sorts
stably by count).  Returns 0 on the empty list (unreachable in the source). -/
def mostCommon (l : List Int) : Int :=
  match dedupePreserveOrder l with
  | [] => 0
  | d :: ds => ds.foldl (fun b y => if l.count b < l.count y then y else b) d

/-- The gap-to-label map of `calculate_frequency`: the literal dict for 1-5,
then `every-N-years` for other gaps ≤ 10, else `irregular`. -/
def gapLabel (g : Int) : String :=
  if g = 1 then "annual"
  else if g = 2 then "biennial"
  else if g = 3 then "triennial"
  else if g = 4 then "quadrennial"
  else if g = 5 then "quinquennial"
  else if g ≤ 10 then "every-" ++ toString g ++ "-years"
  else "irregular"

/-- Number of distinct years having more than one observation
(`years_with_multiple = sum(1 for count in year_counts.values() if count > 1)`). -/
def yearsWithMultiple (years : List Int) : Nat :=
  ((dedupePreserveOrder years).filter (fun y => decide (1 < years.count y))).length

/-- The multiple-per-year test of `calculate_frequency`, evaluated before
deduplication: `total >= 3 and unique >= 2` and then
`avg >= 2.0 or (avg >= 1.5 and years_with_multiple >= unique * 0.4)`.
The float comparisons `total/unique >= 2.0`, `total/unique >= 1.5` and
`years_with_multiple >= unique * 0.4` are expressed by the exactly equivalent
integer inequalities `2*unique <= total`, `3*unique <= 2*total` and
`2*unique <= 5*years_with_multiple`. -/
def multiPerYearCond (years : List Int) : Bool :=
  decide (3 ≤ years.length) && decide (2 ≤ (dedupePreserveOrder years).length) &&
    (decide (2 * (dedupePreserveOrder years).length ≤ years.length) ||
      (decide (3 * (dedupePreserveOrder years).length ≤ 2 * years.length) &&
        decide (2 * (dedupePreserveOrder years).length ≤ 5 * yearsWithMultiple years)))

/-- `calculate_frequency` from `06_calculate_frequencies.py`. -/
def calculate_frequency (years : List Int) : String × List Int :=
  if years.length < 2 then ("one-time", [])
  else if multiPerYearCond years then
    ("multiple-per-year", gapsOf (sortDesc (dedupePreserveOrder years)))
  else
    let sortedYears := sortDesc (dedupePreserveOrder years)
    if sortedYears.length < 2 then ("one-time", [])
    else
      let gaps := gapsOf sortedYears
      if gaps.isEmpty then ("one-time", [])
      else
        let validGaps := gaps.filter (fun g => decide (0 < g))
        if validGaps.isEmpty then ("one-time", gaps)
        else (gapLabel (mostCommon (weightedGaps validGaps)), gaps)

/-! ## Shape enforcement (`clean_lists_for_postgres` in `metadata_cleaning.py`) -/

/-- A DataFrame cell as seen by the shape-enforcement code: missing (`NaN`),
a bare scalar, or a list of values. -/
inductive Cell (α : Type) where
  | na : Cell α
  | scalar : α → Cell α
  | list : List α → Cell α
deriving DecidableEq

/-- `_to_list` from `metadata_cleaning.py`: a list is returned unchanged, `NaN`
becomes `[]`, a bare scalar is wrapped (the source also emits a warning for the
scalar case, which carries no data). -/
def to_list {α : Type} : Cell α → List α
  | .list l => l
  | .na => []
  | .scalar x => [x]

/-- The message of the `ValueError` raised by `_unpack_scalar` (the source
message also interpolates the offending value itself; the column name and
length are kept here). -/
def scalarErrMsg (col : String) (n : Nat) : String :=
  "Column " ++ col ++ " expected scalar but found list of length " ++ toString n

/-- `_unpack_scalar` from `metadata_cleaning.py`: `[] -> NA`, `[x] -> x`,
a list of length 2 or more -> `ValueError` naming the column; non-lists are
returned as-is.  No deduplication happens here. -/
def unpack_scalar {α : Type} (col : String) : Cell α → Except String (Cell α)
  | .list [] => .ok .na
  | .list [x] => .ok (.scalar x)
  | .list l => .error (scalarErrMsg col l.length)
  | c => .ok c

/-- Apply a fallible per-cell function down a column, stopping at the first
raised error, as `Series.apply` does when the lambda raises. -/
def mapExcept {α β ε : Type} (f : α → Except ε β) : List α → Except ε (List β)
  | [] => .ok []
  | x :: xs =>
    match f x with
    | .error e => .error e
    | .ok y =>
      match mapExcept f xs with
      | .error e => .error e
      | .ok ys => .ok (y :: ys)

/-- `ALWAYS_SCALAR` from `metadata_cleaning.py`. -/
def ALWAYS_SCALAR : List String :=
  ["record_number", "proper_title", "other_title", "title", "publication_date"]

/-- `CANDIDATE_SCALAR_FROM_LIST` from `metadata_cleaning.py`. -/
def CANDIDATE_SCALAR_FROM_LIST : List String :=
  ["uniform_title", "symbol", "date", "session_or_year", "conference_name",
    "agenda_document_symbol", "note", "corporate_name_level1", "corporate_name_level2"]

/-- Step 3 of `clean_lists_for_postgres` for one column of `ALWAYS_SCALAR`:
`df[col].apply(lambda v: _unpack_scalar(v, col=col))`. -/
def cleanAlwaysScalarColumn {α : Type} (col : String) (cells : List (Cell α)) :
    Except String (List (Cell α)) :=
  mapExcept (unpack_scalar col) cells

/-- The action of `_unpack_scalar` on an already-deduplicated list of length
at most 1: `[] -> NA`, `[x] -> x`. -/
def scalarizeRow {α : Type} : List α → Cell α
  | [] => .na
  | x :: _ => .scalar x

/-- The message of the `ValueError`/warning raised by step 2 of
`clean_lists_for_postgres` for a candidate-scalar column that stays list-valued
(`bad_idx[:10]` is the first ten offending row indices). -/
def candidateErrMsg (col : String) (badIdx : List Nat) : String :=
  "Column " ++ col ++ " expected to become scalar after dedupe, " ++
    "but still has lists with len > 1 at rows " ++ toString badIdx

/-- Step 2 of `clean_lists_for_postgres` for one column of
`CANDIDATE_SCALAR_FROM_LIST`: normalize every cell to a list, dedupe preserving
order, then scalarize the whole column only when `max_len <= 1`; otherwise in
strict mode raise `ValueError`, in lenient mode warn (the returned Bool) and
keep the whole deduplicated list column.

The source computes `max_len = lengths.max()`: on an empty column pandas's
`max` is `NaN` and `NaN <= 1` is false, so an empty column takes the
non-scalarize branch; this is modelled by the explicit `!ser.isEmpty`
conjunct. -/
def cleanCandidateScalarColumn {α : Type} [DecidableEq α] (strict : Bool) (col : String)
    (cells : List (Cell α)) : Except String (List (Cell α) × Bool) :=
  let ser := cells.map (fun v => dedupePreserveOrder (to_list v))
  if !ser.isEmpty && ser.all (fun l => decide (l.length ≤ 1)) then
    match mapExcept (fun l => unpack_scalar col (Cell.list l)) ser with
    | .error e => .error e
    | .ok out => .ok (out, false)
  else
    let badIdx := (((ser.enum.filter (fun p => decide (1 < p.2.length))).map
      (fun p => p.1)).take 10)
    if strict then .error (candidateErrMsg col badIdx)
    else .ok (ser.map Cell.list, true)

/-! ## Category inference (`infer_document_category` in `get_reports.py`) -/

/-- Python `str.upper()` (ASCII case mapping; all symbols in this corpus are
ASCII). -/
def pyUpper (s : String) : String := ⟨s.data.map Char.toUpper⟩

/-- Python `str.lower()` (ASCII case mapping). -/
def pyLower (s : String) : String := ⟨s.data.map Char.toLower⟩

/-- Python's `needle in hay` substring test. -/
def containsSubstr (hay needle : List Char) : Bool :=
  (List.range (hay.length + 1)).any (fun i => needle.isPrefixOf (hay.drop i))

/-- The resolution-symbol prefix table inlined in `infer_document_category`. -/
def RESOLUTION_SYMBOL_STARTS : List String := ["A/RES/", "S/RES/", "E/RES/", "A/HRC/RES/"]

/-- Python `" ".join(l)`. -/
def joinSpace : List String → String
  | [] => ""
  | [s] => s
  | s :: rest => s ++ " " ++ joinSpace rest

/-- `infer_document_category` from `get_reports.py`.  `symbol = none` models
`symbol=None`; the falsy test `if not symbol` also catches the empty string.
`resource_type_level3 = none` models the caller passing `None` when the raw
value is not a list; `if resource_type_level3:` is falsy for `None` and `[]`. -/
def infer_document_category (symbol : Option String)
    (resource_type_level3 : Option (List String)) : String :=
  match symbol with
  | none => "other"
  | some sym =>
    if sym = "" then "other"
    else if RESOLUTION_SYMBOL_STARTS.any (fun p => p.data.isPrefixOf (pyUpper sym).data) then
      "resolution"
    else
      match resource_type_level3 with
      | some rt3 =>
        if rt3.isEmpty then "report"
        else
          let rt3Str := pyLower (joinSpace rt3)
          if containsSubstr rt3Str.data "resolution".data then "resolution"
          else if containsSubstr rt3Str.data "report".data then "report"
          else if containsSubstr rt3Str.data "letter".data then "letter"
          else if containsSubstr rt3Str.data "note verbale".data then "letter"
          else "report"
      | none => "report"

/-! ## `difflib.SequenceMatcher.ratio` (used by `fuzzy_match_score` in
`02_populate_reporting_entities.py`)

`fuzzy_match_score(s1, s2)` is `SequenceMatcher(None, s1, s2).ratio()`, i.e.
`2 * M / (len(s1) + len(s2))` where `M` is the total size of the matching
blocks.  With `junk=None` the junk set is empty, and with `autojunk=True`
(the default) an element of `b` is "popular" when `len(b) >= 200` and it
occurs more than `len(b) // 100 + 1` times; popular positions are removed
from `b2j`.  `find_longest_match` then
  1. finds, among blocks `a[i:i+k] == b[j:j+k]` within the ranges whose `b`
     characters are all non-popular, one with maximal `k`, and among those the
     one with the smallest end position in `a`, then the smallest end position
     in `b` (this is what the `j2len` dynamic program with its strict
     `k > bestk` update computes, scanning ends in ascending `(i, j)` order);
  2. extends it greedily left then right over equal characters (the
     "non-junk" extension loops: with an empty junk set their junk conditions
     are vacuous, and they may cross popular characters);
     the junk-extension loops never fire since the junk set is empty.
`get_matching_blocks` recurses on the ranges left and right of the found
block; `matchingTotal` computes the total size directly by the same
recursion (the queue order and the merging of adjacent blocks in the source
do not change the total).  The recursion is driven by fuel; every recursive
call strictly shrinks `ahi - alo`, so the initial fuel `len(a) + 1` never
runs out (`matchingTotal_fuel_irrelevant` below). -/

/-- The autojunk "popular" test of `SequenceMatcher` for second sequence `b`. -/
def popularB (b : List Char) : Char → Bool :=
  fun c => decide (200 ≤ b.length) && decide (b.length / 100 + 1 < b.count c)

/-- Length of the common prefix of two lists along which the `b`-side
characters are non-popular. -/
def commonCleanLen (pop : Char → Bool) : List Char → List Char → Nat
  | x :: xs, y :: ys => if x == y && !pop y then 1 + commonCleanLen pop xs ys else 0
  | _, _ => 0

/-- Size of the clean matching block ending at positions `(ei, ej)` of `a`,`b`
and clipped at range starts `alo`,`blo`: the `j2len` value of the dynamic
program of `find_longest_match`. -/
def backCleanLen (a b : List Char) (pop : Char → Bool) (alo blo ei ej : Nat) : Nat :=
  commonCleanLen pop (((a.take (ei + 1)).drop alo).reverse) (((b.take (ej + 1)).drop blo).reverse)

/-- The dynamic program of `find_longest_match`: scan all end positions in
ascending `(i, j)` order, keeping the first block of strictly maximal size
(equivalently: maximal `k`, then smallest end in `a`, then smallest end in
`b`); `(alo, blo, 0)` when there is no clean block. -/
def flmDP (a b : List Char) (pop : Char → Bool) (alo ahi blo bhi : Nat) :
    Nat × Nat × Nat :=
  (List.range' alo (ahi - alo)).foldl (fun best ei =>
    (List.range' blo (bhi - blo)).foldl (fun best ej =>
      let k := backCleanLen a b pop alo blo ei ej
      if best.2.2 < k then (ei + 1 - k, ej + 1 - k, k) else best) best) (alo, blo, 0)

/-- Do positions `i` of `a` and `j` of `b` hold equal characters? -/
def matchAt (a b : List Char) (i j : Nat) : Bool :=
  match a[i]?, b[j]? with
  | some x, some y => x == y
  | _, _ => false

/-- The left extension loop of `find_longest_match` (fuel-driven; fuel `i`
suffices since `i` decreases to at most `alo ≥ 0`). -/
def extendLeft (a b : List Char) (alo blo : Nat) : Nat → Nat × Nat × Nat → Nat × Nat × Nat
  | 0, r => r
  | f + 1, (i, j, k) =>
    if alo < i && blo < j && matchAt a b (i - 1) (j - 1) then
      extendLeft a b alo blo f (i - 1, j - 1, k + 1)
    else (i, j, k)

/-- The right extension loop of `find_longest_match` (fuel-driven; fuel
`ahi - (i + k)` suffices). -/
def extendRight (a b : List Char) (ahi bhi : Nat) : Nat → Nat × Nat × Nat → Nat × Nat × Nat
  | 0, r => r
  | f + 1, (i, j, k) =>
    if i + k < ahi && j + k < bhi && matchAt a b (i + k) (j + k) then
      extendRight a b ahi bhi f (i, j, k + 1)
    else (i, j, k)

/-- `SequenceMatcher.find_longest_match` on ranges `a[alo:ahi]`, `b[blo:bhi]`
with junk set empty and popular set `pop`. -/
def find_longest_match (a b : List Char) (pop : Char → Bool) (alo ahi blo bhi : Nat) :
    Nat × Nat × Nat :=
  let r1 := flmDP a b pop alo ahi blo bhi
  let r2 := extendLeft a b alo blo r1.1 r1
  extendRight a b ahi bhi (ahi - (r2.1 + r2.2.2)) r2

/-- Total size of the matching blocks of `get_matching_blocks` restricted to
the given ranges (fuel-driven recursion; initial fuel `ahi - alo + 1` never
runs out). -/
def matchingTotal (a b : List Char) (pop : Char → Bool) :
    Nat → Nat → Nat → Nat → Nat → Nat
  | 0, _, _, _, _ => 0
  | f + 1, alo, ahi, blo, bhi =>
    let r := find_longest_match a b pop alo ahi blo bhi
    if r.2.2 = 0 then 0
    else
      matchingTotal a b pop f alo r.1 blo r.2.1 + r.2.2 +
        matchingTotal a b pop f (r.1 + r.2.2) ahi (r.2.1 + r.2.2) bhi

/-- `fuzzy_match_score` from `02_populate_reporting_entities.py`:
`SequenceMatcher(None, s1, s2).ratio()`.  `_calculate_ratio` returns `1.0`
when both strings are empty, else `2.0 * matches / length` (written with
`mkRat`, which equals the division by `Rat.mkRat_eq_div`). -/
def fuzzy_match_score (s1 s2 : List Char) : Rat :=
  if s1.length + s2.length = 0 then 1
  else
    mkRat (2 * (matchingTotal s1 s2 (popularB s2) (s1.length + 1) 0 s1.length 0 s2.length : Int))
      (s1.length + s2.length)

/-! ## Fuzzy title matcher (`match_dri_to_proper_titles` in
`02_populate_reporting_entities.py`) -/

/-- The stopword set of `get_title_words`. -/
def STOPWORDS : List String :=
  ["the", "of", "and", "to", "a", "in", "for", "on", "by", "report",
    "secretary-general", "secretarygeneral", "general", "united", "nations"]

/-- Worker for Python `str.split()` with no arguments: split on whitespace
runs, dropping empty pieces; `acc` is the reversed current word. -/
def pySplitAux : List Char → List Char → List (List Char)
  | [], acc => if acc.isEmpty then [] else [acc.reverse]
  | c :: cs, acc =>
    if c.isWhitespace then
      if acc.isEmpty then pySplitAux cs [] else acc.reverse :: pySplitAux cs []
    else pySplitAux cs (c :: acc)

/-- Python `str.split()` with no arguments. -/
def pySplit (s : List Char) : List (List Char) := pySplitAux s []

/-- `get_title_words`: `set(title.split()) - stopwords`.  The set is modelled
as the first-occurrence-deduplicated word list; callers only consume
intersection sizes, which do not depend on order. -/
def get_title_words (t : String) : List String :=
  (dedupePreserveOrder ((pySplit t.data).map List.asString)).filter
    (fun w => decide (w ∉ STOPWORDS))

/-- A row of the `db_data` candidate pool built by `match_dri_to_proper_titles`
from the canonical store: `(proper_title, norm_title, symbol)` (the word set is
recomputed on demand here, which yields the same candidates). -/
structure DbRow where
  proper_title : String
  norm_title : String
  symbol : String
deriving DecidableEq

/-- A grouped DRI row as iterated by `match_dri_to_proper_titles`: the distinct
normalized external title with its first entity and first original title
(`dri_df.groupby("norm_title").agg "first"`). -/
structure DriRow where
  norm_title : String
  entity : String
  document_title : String
deriving DecidableEq

/-- The per-key record stored in `proper_title_matches`. -/
structure MatchInfo where
  score : Rat
  dri_title : String
  matched_symbol : String
  matched_db_title : String
deriving DecidableEq

/-- An output suggestion row `(proper_title, entity, confidence_score,
match_details)`; the JSON `match_details` payload is modelled by its fields
(`dri_title`, `matched_symbol`, `fuzzy_score`). -/
structure Suggestion where
  proper_title : String
  entity : String
  confidence_score : Rat
  dri_title : String
  matched_symbol : String
  fuzzy_score : Rat
deriving DecidableEq

/-- Python dict lookup over an insertion-ordered association list. -/
def dictLookup {κ ν : Type} [DecidableEq κ] (d : List (κ × ν)) (k : κ) : Option ν :=
  (d.find? (fun p => decide (p.1 = k))).map (fun p => p.2)

/-- Python dict assignment `d[k] = v`: update in place when the key exists,
else append. -/
def dictInsert {κ ν : Type} [DecidableEq κ] (d : List (κ × ν)) (k : κ) (v : ν) :
    List (κ × ν) :=
  if (d.find? (fun p => decide (p.1 = k))).isSome then
    d.map (fun p => if p.1 = k then (k, v) else p)
  else d ++ [(k, v)]

/-- The similarity score of a DRI query title against a candidate row:
`fuzzy_match_score(dri_title, db_title)`. -/
def scoreOf (query : String) (r : DbRow) : Rat :=
  fuzzy_match_score query.data r.norm_title.data

/-- The best-candidate loop of `match_dri_to_proper_titles`: start from
`best_score = 0`, `best = None`, replace on strictly greater score. -/
def bestMatch (query : String) (cands : List DbRow) : Rat × Option DbRow :=
  cands.foldl (fun acc c =>
    if acc.1 < scoreOf query c then (scoreOf query c, some c) else acc) (0, none)

/-- The candidate pre-filter of `match_dri_to_proper_titles`: rows sharing at
least 2 significant words with the query; when none qualifies, fall back to
the first 50 rows of the pool. -/
def driCandidates (db : List DbRow) (query : String) : List DbRow :=
  let pre := db.filter (fun r =>
    decide (2 ≤ ((get_title_words query).filter
      (fun w => decide (w ∈ get_title_words r.norm_title))).length))
  if pre.isEmpty then db.take 50 else pre

/-- Round `n / d` (`d ≠ 0`) to the nearest integer, ties to even. -/
def roundHalfEvenInt (n : Int) (d : Nat) : Int :=
  let f := Int.fdiv n d
  let r := n - f * d
  if 2 * r < d then f
  else if (d : Int) < 2 * r then f + 1
  else if f % 2 = 0 then f else f + 1

/-- Python `round(q, 3)` on the exact rational value of the score: round
`1000*q` half-to-even, divide by 1000.  (The scores rounded in the source are
small exact rationals `2M/T`, for which float `round` agrees with exact
rounding.) -/
def roundTo3 (q : Rat) : Rat := mkRat (roundHalfEvenInt (1000 * q.num) q.den) 1000

/-- Processing of one grouped DRI row by `match_dri_to_proper_titles`: skip
rows with empty title/entity or an entity outside the controlled vocabulary;
pre-filter candidates; keep the single highest-scoring candidate; accept only
when `best_score >= threshold and best_proper_title` (truthiness: the empty
proper title is falsy); keep only the best score per
`(proper_title, entity)` key. -/
def processDriRow (validEntities : List String) (db : List DbRow) (threshold : Rat)
    (st : List ((String × String) × MatchInfo)) (row : DriRow) :
    List ((String × String) × MatchInfo) :=
  if row.norm_title = "" then st
  else if row.entity = "" then st
  else if row.entity ∈ validEntities then
    match (bestMatch row.norm_title (driCandidates db row.norm_title)).2 with
    | none => st
    | some c =>
      if threshold ≤ (bestMatch row.norm_title (driCandidates db row.norm_title)).1
          ∧ c.proper_title ≠ "" then
        match dictLookup st (c.proper_title, row.entity) with
        | none =>
          dictInsert st (c.proper_title, row.entity)
            ⟨(bestMatch row.norm_title (driCandidates db row.norm_title)).1,
              row.document_title, c.symbol, c.norm_title⟩
        | some old =>
          if old.score < (bestMatch row.norm_title (driCandidates db row.norm_title)).1 then
            dictInsert st (c.proper_title, row.entity)
              ⟨(bestMatch row.norm_title (driCandidates db row.norm_title)).1,
                row.document_title, c.symbol, c.norm_title⟩
          else st
      else st
  else st

/-- `match_dri_to_proper_titles` from `02_populate_reporting_entities.py`
(called with `threshold=0.8`): fold the grouped DRI rows through
`processDriRow`, then emit one suggestion per stored key with the confidence
score rounded to 3 decimals. -/
def match_dri_to_proper_titles (validEntities : List String) (db : List DbRow)
    (driRows : List DriRow) : List Suggestion :=
  (driRows.foldl (processDriRow validEntities db (mkRat 4 5)) []).map
    (fun kv => ⟨kv.1.1, kv.1.2, roundTo3 kv.2.score, kv.2.dri_title,
      kv.2.matched_symbol, roundTo3 kv.2.score⟩)

/-! ## Resolution-reference extraction
(`extract_resolution_refs_from_note` in `metadata_link_extraction.py`)

The extraction uses `re.search` / `re.finditer` with four fixed patterns.
The patterns use only: single characters and character classes, literal text
(case-insensitive under `re.IGNORECASE`), `[s]?`/greedy `?`, greedy `+`/`*`,
lazy `+?`, non-capturing alternation, capture groups, and `$`.  These are
embedded as a regex AST with a backtracking matcher that follows Python's
strategy exactly: alternatives in written order, greedy quantifiers try to
consume first, lazy quantifiers try to stop first, `re.search` takes the
leftmost starting position that admits a match, `finditer` resumes at the end
of the previous match (plus one if it was empty), and `$` matches at the end
of the input or before a final newline.  The matcher is in
continuation-passing style with a fuel parameter; each nested pattern node and
each quantifier iteration consumes one unit of fuel from its parent frame, so
fuel `length + 100` is ample for these fixed patterns (the largest has fewer
than 60 nodes, and every quantifier iteration consumes input). -/

/-- Regex AST: the constructs used by the four extraction patterns. -/
inductive RE where
  | emp : RE
  | cls : (Char → Bool) → RE
  | seq : RE → RE → RE
  | alt : RE → RE → RE
  | opt : RE → RE
  | starG : RE → RE
  | starL : RE → RE
  | group : Nat → RE → RE
  | eos : RE

/-- Record the span of capture group `n` (overwriting a previous span, as
Python keeps the last participation of a group). -/
def setCap (cp : List (Nat × Nat × Nat)) (n s e : Nat) : List (Nat × Nat × Nat) :=
  if (cp.find? (fun t => decide (t.1 = n))).isSome then
    cp.map (fun t => if t.1 = n then (n, s, e) else t)
  else cp ++ [(n, s, e)]

/-- The span of capture group `n`, or `none` when the group did not
participate in the match (Python's `m.group(n) is None`). -/
def getCap (cp : List (Nat × Nat × Nat)) (n : Nat) : Option (Nat × Nat) :=
  (cp.find? (fun t => decide (t.1 = n))).map (fun t => t.2)

/-- Backtracking matcher in continuation-passing style, mirroring Python's
`re` semantics for the constructs of `RE` (see the section comment). -/
def matchR : Nat → RE → List Char → Nat → List (Nat × Nat × Nat) →
    (Nat → List (Nat × Nat × Nat) → Option (Nat × List (Nat × Nat × Nat))) →
    Option (Nat × List (Nat × Nat × Nat))
  | 0, _, _, _, _, _ => none
  | f + 1, re, s, i, cp, k =>
    match re with
    | .emp => k i cp
    | .cls p =>
      match s[i]? with
      | some c => if p c then k (i + 1) cp else none
      | none => none
    | .seq r1 r2 => matchR f r1 s i cp (fun j cp2 => matchR f r2 s j cp2 k)
    | .alt r1 r2 =>
      match matchR f r1 s i cp k with
      | some res => some res
      | none => matchR f r2 s i cp k
    | .opt r =>
      match matchR f r s i cp k with
      | some res => some res
      | none => k i cp
    | .starG r =>
      match matchR f r s i cp
          (fun j cp2 => if j = i then none else matchR f (.starG r) s j cp2 k) with
      | some res => some res
      | none => k i cp
    | .starL r =>
      match k i cp with
      | some res => some res
      | none =>
        matchR f r s i cp
          (fun j cp2 => if j = i then none else matchR f (.starL r) s j cp2 k)
    | .group n r => matchR f r s i cp (fun j cp2 => k j (setCap cp2 n i j))
    | .eos =>
      if i = s.length || (i + 1 = s.length && s[i]? == some '\n') then k i cp else none

/-- `re.search` restricted to start positions `>= pos`: the leftmost starting
position admitting a match wins; returns (start, end, captures). -/
def reSearchFrom (re : RE) (s : List Char) (pos : Nat) :
    Option (Nat × Nat × List (Nat × Nat × Nat)) :=
  (List.range' pos (s.length + 1 - pos)).findSome? (fun st =>
    (matchR (s.length + 100) re s st [] (fun j cp => some (j, cp))).map
      (fun r => (st, r.1, r.2)))

/-- `re.search`. -/
def research (re : RE) (s : List Char) : Option (Nat × Nat × List (Nat × Nat × Nat)) :=
  reSearchFrom re s 0

/-- Worker for `re.finditer`: repeated non-overlapping searches, resuming at
the end of the previous match (plus one if it was empty). -/
def finditerAux (re : RE) (s : List Char) : Nat → Nat → List (Nat × Nat × List (Nat × Nat × Nat))
  | 0, _ => []
  | f + 1, pos =>
    if s.length < pos then []
    else
      match reSearchFrom re s pos with
      | none => []
      | some (st, en, cp) =>
        (st, en, cp) :: finditerAux re s f (if st < en then en else st + 1)

/-- `re.finditer`. -/
def refinditer (re : RE) (s : List Char) : List (Nat × Nat × List (Nat × Nat × Nat)) :=
  finditerAux re s (s.length + 1) 0

/-- Python slice `s[a:b]`. -/
def pySlice (s : List Char) (a b : Nat) : List Char := (s.take b).drop a

/-- Python whitespace characters (`\s`, `str.strip`, `str.split`; ASCII
range, which covers this corpus). -/
def isPyWhitespace (c : Char) : Bool :=
  c == ' ' || c == '\t' || c == '\n' || c == '\r' || c == '\x0b' || c == '\x0c'

/-- Python `\w` (ASCII range). -/
def isPyWord (c : Char) : Bool := c.isAlphanum || c == '_'

/-- A case-insensitive literal (each pattern character matches both cases, as
under `re.IGNORECASE`). -/
def reLitCI (l : List Char) : RE :=
  l.foldr (fun c r => RE.seq (RE.cls (fun x => x.toLower == c.toLower)) r) RE.emp

/-- A single literal (case-sensitive) character. -/
def reChar (c : Char) : RE := RE.cls (fun x => x == c)

/-- Greedy `+`. -/
def rePlusG (r : RE) : RE := RE.seq r (RE.starG r)

/-- Lazy `+?`. -/
def rePlusL (r : RE) : RE := RE.seq r (RE.starL r)

/-- The trailing `(?:\.|;|$)` of the four outer patterns. -/
def reEndPunct : RE := RE.alt (reChar '.') (RE.alt (reChar ';') RE.eos)

/-- The shared tail `resolution[s]?\s+(<class>+?)(?:\.|;|$)` of the outer
patterns (the leading literal includes `resolution`), under `IGNORECASE`. -/
def reOuterTail (lit : List Char) (classChar : Char → Bool) : RE :=
  RE.seq (reLitCI lit)
    (RE.seq (RE.opt (RE.cls (fun x => x.toLower == 's')))
      (RE.seq (rePlusG (RE.cls isPyWhitespace))
        (RE.seq (RE.group 1 (rePlusL (RE.cls classChar)))
          reEndPunct)))

/-- The class `[\d/\s\w,and]` of the General Assembly pattern (under
`IGNORECASE`). -/
def gaClassChar (c : Char) : Bool :=
  c.isDigit || c == '/' || isPyWhitespace c || isPyWord c || c == ',' ||
    c.toLower == 'a' || c.toLower == 'n' || c.toLower == 'd'

/-- The class `[\d\s\(\),and]` of the Security Council pattern. -/
def scClassChar (c : Char) : Bool :=
  c.isDigit || isPyWhitespace c || c == '(' || c == ')' || c == ',' ||
    c.toLower == 'a' || c.toLower == 'n' || c.toLower == 'd'

/-- The class `[\d/\s,and]` of the ECOSOC and HRC patterns. -/
def ehClassChar (c : Char) : Bool :=
  c.isDigit || c == '/' || isPyWhitespace c || c == ',' ||
    c.toLower == 'a' || c.toLower == 'n' || c.toLower == 'd'

/-- Pattern 1 outer: `General Assembly resolution[s]?\s+([\d/\s\w,and]+?)(?:\.|;|$)`. -/
def gaOuterRE : RE := reOuterTail "General Assembly resolution".data gaClassChar

/-- Pattern 1 inner: `(\d+/\d+)(?:\s*([A-Z]))?` with `IGNORECASE` (so `[A-Z]`
also matches lowercase letters). -/
def gaInnerRE : RE :=
  RE.seq
    (RE.group 1 (RE.seq (rePlusG (RE.cls Char.isDigit))
      (RE.seq (reChar '/') (rePlusG (RE.cls Char.isDigit)))))
    (RE.opt (RE.seq (RE.starG (RE.cls isPyWhitespace))
      (RE.group 2 (RE.cls (fun c =>
        (decide ('A' ≤ c) && decide (c ≤ 'Z')) || (decide ('a' ≤ c) && decide (c ≤ 'z')))))))

/-- Pattern 2 outer: `Security Council resolution[s]?\s+([\d\s\(\),and]+?)(?:\.|;|$)`. -/
def scOuterRE : RE := reOuterTail "Security Council resolution".data scClassChar

/-- Pattern 2 inner: `(\d+)\s*\((\d{4})\)` (no flags). -/
def scInnerRE : RE :=
  RE.seq (RE.group 1 (rePlusG (RE.cls Char.isDigit)))
    (RE.seq (RE.starG (RE.cls isPyWhitespace))
      (RE.seq (reChar '(')
        (RE.seq (RE.group 2 (RE.seq (RE.cls Char.isDigit) (RE.seq (RE.cls Char.isDigit)
          (RE.seq (RE.cls Char.isDigit) (RE.cls Char.isDigit)))))
          (reChar ')'))))

/-- Pattern 3 outer:
`(?:ECOSOC|Economic and Social Council) resolution[s]?\s+([\d/\s,and]+?)(?:\.|;|$)`. -/
def ecosocOuterRE : RE :=
  RE.seq (RE.alt (reLitCI "ECOSOC".data) (reLitCI "Economic and Social Council".data))
    (reOuterTail " resolution".data ehClassChar)

/-- Patterns 3/4 inner: `(\d+/\d+)` (no flags). -/
def ehInnerRE : RE :=
  RE.group 1 (RE.seq (rePlusG (RE.cls Char.isDigit))
    (RE.seq (reChar '/') (rePlusG (RE.cls Char.isDigit))))

/-- Pattern 4 outer: `Human Rights Council resolution[s]?\s+([\d/\s,and]+?)(?:\.|;|$)`. -/
def hrcOuterRE : RE := reOuterTail "Human Rights Council resolution".data ehClassChar

/-- Python `str.strip()`. -/
def pyStrip (l : List Char) : List Char :=
  ((l.dropWhile isPyWhitespace).reverse.dropWhile isPyWhitespace).reverse

/-- One extracted resolution reference (the dict appended by
`extract_resolution_refs_from_note`). -/
structure ResolutionRef where
  body : String
  resolution_num : String
  inferred_symbol : String
deriving DecidableEq

/-- The General Assembly block of `extract_resolution_refs_from_note`:
the number is `m.group(1)`, the optional suffix is `" " + m.group(2).upper()`,
and both outputs are `.strip()`-ed. -/
def gaRefs (note : List Char) : List ResolutionRef :=
  match research gaOuterRE note with
  | none => []
  | some (_, _, cp) =>
    match getCap cp 1 with
    | none => []
    | some (a, b) =>
      let resText := pySlice note a b
      (refinditer gaInnerRE resText).map (fun m =>
        let num := match getCap m.2.2 1 with
          | some (c, d) => pySlice resText c d
          | none => []
        let suffix : List Char := match getCap m.2.2 2 with
          | some (c, d) => ' ' :: (pySlice resText c d).map Char.toUpper
          | none => []
        { body := "General Assembly"
          resolution_num := (pyStrip (num ++ suffix)).asString
          inferred_symbol := (pyStrip ("A/RES/".data ++ num ++ suffix)).asString })

/-- The Security Council block: `f"{m.group(1)} ({m.group(2)})"` with the
fixed `S/RES/` body prefix (no strip in the source). -/
def scRefs (note : List Char) : List ResolutionRef :=
  match research scOuterRE note with
  | none => []
  | some (_, _, cp) =>
    match getCap cp 1 with
    | none => []
    | some (a, b) =>
      let resText := pySlice note a b
      (refinditer scInnerRE resText).map (fun m =>
        let num := match getCap m.2.2 1 with
          | some (c, d) => pySlice resText c d
          | none => []
        let year := match getCap m.2.2 2 with
          | some (c, d) => pySlice resText c d
          | none => []
        { body := "Security Council"
          resolution_num := (num ++ " (".data ++ year ++ [')']).asString
          inferred_symbol := ("S/RES/".data ++ num ++ " (".data ++ year ++ [')']).asString })

/-- The ECOSOC block: symbol prefix `E/RES/`. -/
def ecosocRefs (note : List Char) : List ResolutionRef :=
  match research ecosocOuterRE note with
  | none => []
  | some (_, _, cp) =>
    match getCap cp 1 with
    | none => []
    | some (a, b) =>
      let resText := pySlice note a b
      (refinditer ehInnerRE resText).map (fun m =>
        let num := match getCap m.2.2 1 with
          | some (c, d) => pySlice resText c d
          | none => []
        { body := "Economic and Social Council"
          resolution_num := num.asString
          inferred_symbol := ("E/RES/".data ++ num).asString })

/-- The Human Rights Council block: symbol prefix `A/HRC/RES/`. -/
def hrcRefs (note : List Char) : List ResolutionRef :=
  match research hrcOuterRE note with
  | none => []
  | some (_, _, cp) =>
    match getCap cp 1 with
    | none => []
    | some (a, b) =>
      let resText := pySlice note a b
      (refinditer ehInnerRE resText).map (fun m =>
        let num := match getCap m.2.2 1 with
          | some (c, d) => pySlice resText c d
          | none => []
        { body := "Human Rights Council"
          resolution_num := num.asString
          inferred_symbol := ("A/HRC/RES/".data ++ num).asString })

/-- `extract_resolution_refs_from_note` from `metadata_link_extraction.py`. -/
def extract_resolution_refs_from_note (note : List Char) : List ResolutionRef :=
  if note.isEmpty then []
  else gaRefs note ++ scRefs note ++ ecosocRefs note ++ hrcRefs note

/-- The `notes` argument of `extract_resolution_symbols_from_notes`:
`list[str] | str | None`. -/
inductive NotesInput where
  | noneInput : NotesInput
  | strInput : List Char → NotesInput
  | listInput : List (List Char) → NotesInput

/-- `extract_resolution_symbols_from_notes` from `metadata_link_extraction.py`:
falsy input gives `[]`; a bare string is wrapped in a one-element list; the
per-note inferred symbols are concatenated and deduplicated preserving first
occurrence (the seen-set comprehension). -/
def extract_resolution_symbols_from_notes : NotesInput → List String
  | .noneInput => []
  | .strInput s =>
    if s.isEmpty then []
    else
      dedupePreserveOrder
        (([s].map (fun n =>
          (extract_resolution_refs_from_note n).map (fun r => r.inferred_symbol))).flatten)
  | .listInput l =>
    if l.isEmpty then []
    else
      dedupePreserveOrder
        ((l.map (fun n =>
          (extract_resolution_refs_from_note n).map (fun r => r.inferred_symbol))).flatten)

/-! # Theorems -/

/-! ## Dedup helper lemmas -/

theorem dedupeGo_sublist {α : Type} [DecidableEq α] :
    ∀ (l seen : List α), (dedupeGo l seen).Sublist l := by
  intro l
  induction l with
  | nil => intro seen; simp [dedupeGo]
  | cons x xs ih =>
    intro seen
    simp only [dedupeGo]
    by_cases h : x ∈ seen
    · simp only [h, if_true]
      exact (ih seen).trans (List.sublist_cons_self x xs)
    · simp only [h, if_false]
      exact (ih (x :: seen)).cons₂ x

theorem dedupePreserveOrder_length_le {α : Type} [DecidableEq α] (l : List α) :
    (dedupePreserveOrder l).length ≤ l.length :=
  (dedupeGo_sublist l []).length_le

theorem dedupeGo_not_mem_seen {α : Type} [DecidableEq α] :
    ∀ (l seen : List α) (x : α), x ∈ dedupeGo l seen → x ∉ seen := by
  intro l
  induction l with
  | nil => intro seen x hx; simp [dedupeGo] at hx
  | cons y ys ih =>
    intro seen x hx
    simp only [dedupeGo] at hx
    by_cases h : y ∈ seen
    · simp only [h, if_true] at hx
      exact ih seen x hx
    · simp only [h, if_false, List.mem_cons] at hx
      rcases hx with rfl | hx
      · exact h
      · have := ih (y :: seen) x hx
        intro hc
        exact this (List.mem_cons_of_mem y hc)

theorem dedupeGo_nodup {α : Type} [DecidableEq α] :
    ∀ (l seen : List α), (dedupeGo l seen).Nodup := by
  intro l
  induction l with
  | nil => intro seen; simp [dedupeGo]
  | cons x xs ih =>
    intro seen
    simp only [dedupeGo]
    by_cases h : x ∈ seen
    · simp only [h, if_true]; exact ih seen
    · simp only [h, if_false, List.nodup_cons]
      refine ⟨fun hc => ?_, ih (x :: seen)⟩
      exact dedupeGo_not_mem_seen xs (x :: seen) x hc (List.mem_cons_self x seen)

theorem dedupePreserveOrder_nodup {α : Type} [DecidableEq α] (l : List α) :
    (dedupePreserveOrder l).Nodup :=
  dedupeGo_nodup l []

theorem dedupeGo_mem {α : Type} [DecidableEq α] :
    ∀ (l seen : List α) (x : α), x ∈ l → x ∉ seen → x ∈ dedupeGo l seen := by
  intro l
  induction l with
  | nil => intro seen x hx; simp at hx
  | cons y ys ih =>
    intro seen x hx hs
    simp only [List.mem_cons] at hx
    simp only [dedupeGo]
    by_cases h : y ∈ seen
    · simp only [h, if_true]
      rcases hx with rfl | hx
      · exact absurd h hs
      · exact ih seen x hx hs
    · simp only [h, if_false, List.mem_cons]
      rcases hx with rfl | hx
      · exact Or.inl rfl
      · by_cases hxy : x = y
        · exact Or.inl hxy
        · exact Or.inr (ih (y :: seen) x hx (by simp [hs, hxy]))

theorem dedupePreserveOrder_mem {α : Type} [DecidableEq α] (l : List α) (x : α) :
    x ∈ dedupePreserveOrder l ↔ x ∈ l := by
  constructor
  · intro h; exact (dedupeGo_sublist l []).mem h
  · intro h; exact dedupeGo_mem l [] x h (by simp)

/-! ## Tokenizer lemmas and Claim C1 -/

theorem splitSymbolAux_join :
    ∀ (s acc : List Char), (splitSymbolAux s acc).flatten = acc.reverse ++ s := by
  intro s
  induction s with
  | nil => intro acc; simp [splitSymbolAux]
  | cons c cs ih =>
    intro acc
    simp only [splitSymbolAux]
    by_cases h : isSymbolSep c
    · simp [h, ih, List.append_assoc]
    · simp [h, ih]

theorem filter_nonempty_join (L : List (List Char)) :
    (L.filter (fun t => !t.isEmpty)).flatten = L.flatten := by
  induction L with
  | nil => rfl
  | cons t ts ih =>
    by_cases h : t.isEmpty
    · have ht : t = [] := by cases t <;> simp_all [List.isEmpty]
      simp [List.filter_cons, h, ht, ih]
    · simp [List.filter_cons, h, ih]

theorem splitSymbolAux_tokens :
    ∀ (s acc : List Char), (∀ c ∈ acc, isSymbolSep c = false) →
      ∀ t ∈ splitSymbolAux s acc,
        (∃ c, t = [c] ∧ isSymbolSep c = true) ∨ (∀ c ∈ t, isSymbolSep c = false) := by
  intro s
  induction s with
  | nil =>
    intro acc hacc t ht
    simp only [splitSymbolAux, List.mem_singleton] at ht
    subst ht
    exact Or.inr (fun c hc => hacc c (List.mem_reverse.mp hc))
  | cons c cs ih =>
    intro acc hacc t ht
    simp only [splitSymbolAux] at ht
    by_cases h : isSymbolSep c
    · simp only [h, if_true, List.mem_cons] at ht
      rcases ht with rfl | rfl | ht
      · exact Or.inr (fun d hd => hacc d (List.mem_reverse.mp hd))
      · exact Or.inl ⟨c, rfl, h⟩
      · exact ih [] (by simp) t ht
    · simp only [h, if_false] at ht
      refine ih (c :: acc) ?_ t ht
      intro d hd
      rcases List.mem_cons.mp hd with rfl | hd
      · simpa using h
      · exact hacc d hd

theorem splitSymbolAux_chain :
    ∀ (s acc : List Char),
      List.Chain' (fun t₁ t₂ => IsSepToken t₁ ∨ IsSepToken t₂)
        ((splitSymbolAux s acc).filter (fun t => !t.isEmpty)) := by
  intro s
  induction s with
  | nil =>
    intro acc
    simp only [splitSymbolAux]
    by_cases h : acc.reverse.isEmpty <;> simp [List.filter_cons, h, List.chain'_singleton]
  | cons c cs ih =>
    intro acc
    simp only [splitSymbolAux]
    by_cases h : isSymbolSep c
    · simp only [h, if_true]
      have hstep :
          ((([c] : List Char) :: splitSymbolAux cs []).filter (fun t => !t.isEmpty))
            = [c] :: (splitSymbolAux cs []).filter (fun t => !t.isEmpty) := by
        simp [List.filter_cons]
      have hchain1 :
          List.Chain' (fun t₁ t₂ => IsSepToken t₁ ∨ IsSepToken t₂)
            ([c] :: (splitSymbolAux cs []).filter (fun t => !t.isEmpty)) :=
        List.chain'_cons'.mpr ⟨fun _ _ => Or.inl ⟨c, rfl, h⟩, ih []⟩
      by_cases ha : acc.reverse.isEmpty
      · rw [List.filter_cons_of_neg (by simp [ha]), hstep]
        exact hchain1
      · rw [List.filter_cons_of_pos (by simp [ha]), hstep]
        refine List.chain'_cons'.mpr ⟨?_, hchain1⟩
        intro y hy
        have hy' : y = [c] := by
          have := hy
          simp at this
          exact this.symm
        subst hy'
        exact Or.inr ⟨c, rfl, h⟩
    · simp only [h, if_false]
      exact ih (c :: acc)

/-- Claim C1: for every symbol string S the tokenizer satisfies the round-trip
law `join (tokenize S) = S`; no emitted token is empty; every emitted token is
either a single separator character or a run containing no separator character,
and two non-separator runs are never adjacent (so each run is maximal); a
null/missing symbol yields the empty token sequence. -/
theorem split_symbol_round_trip (s : List Char) :
    (split_symbol_with_separators (some s)).flatten = s ∧
    (∀ t ∈ split_symbol_with_separators (some s), t ≠ []) ∧
    (∀ t ∈ split_symbol_with_separators (some s),
      (∃ c, t = [c] ∧ isSymbolSep c = true) ∨ (∀ c ∈ t, isSymbolSep c = false)) ∧
    List.Chain' (fun t₁ t₂ => IsSepToken t₁ ∨ IsSepToken t₂)
      (split_symbol_with_separators (some s)) ∧
    split_symbol_with_separators none = [] := by
  refine ⟨?_, ?_, ?_, ?_, rfl⟩
  · rw [split_symbol_with_separators, filter_nonempty_join, splitSymbolAux_join]
    simp
  · intro t ht
    rw [split_symbol_with_separators, List.mem_filter] at ht
    intro hnil
    subst hnil
    simp at ht
  · intro t ht
    rw [split_symbol_with_separators, List.mem_filter] at ht
    exact splitSymbolAux_tokens s [] (by simp) t ht.1
  · exact splitSymbolAux_chain s []

/-! ## Frequency Estimator lemmas and Claims C2, C3, C10 -/

theorem insertDesc_perm (x : Int) : ∀ l : List Int, (insertDesc x l).Perm (x :: l) := by
  intro l
  induction l with
  | nil => simp [insertDesc]
  | cons y ys ih =>
    simp only [insertDesc]
    by_cases h : y ≤ x
    · simp [h]
    · simp only [h, if_false]
      exact (ih.cons y).trans (List.Perm.swap x y ys)

theorem sortDesc_perm : ∀ l : List Int, (sortDesc l).Perm l := by
  intro l
  induction l with
  | nil => simp [sortDesc]
  | cons x xs ih =>
    have h : sortDesc (x :: xs) = insertDesc x (sortDesc xs) := rfl
    rw [h]
    exact (insertDesc_perm x (sortDesc xs)).trans (ih.cons x)

theorem insertDesc_sorted (x : Int) :
    ∀ l : List Int, l.Pairwise (fun a b => b ≤ a) →
      (insertDesc x l).Pairwise (fun a b => b ≤ a) := by
  intro l
  induction l with
  | nil => intro _; simp [insertDesc]
  | cons y ys ih =>
    intro hp
    rcases List.pairwise_cons.mp hp with ⟨hy, hys⟩
    simp only [insertDesc]
    by_cases h : y ≤ x
    · simp only [h, if_true]
      refine List.pairwise_cons.mpr ⟨?_, hp⟩
      intro z hz
      rcases List.mem_cons.mp hz with rfl | hz
      · exact h
      · exact le_trans (hy z hz) h
    · simp only [h, if_false]
      refine List.pairwise_cons.mpr ⟨?_, ih hys⟩
      intro z hz
      have hz' := (insertDesc_perm x ys).mem_iff.mp hz
      rcases List.mem_cons.mp hz' with rfl | hz'
      · exact le_of_not_le h
      · exact hy z hz'

theorem sortDesc_sorted : ∀ l : List Int, (sortDesc l).Pairwise (fun a b => b ≤ a) := by
  intro l
  induction l with
  | nil => simp [sortDesc]
  | cons x xs ih => exact insertDesc_sorted x (sortDesc xs) ih

theorem sortDesc_strict (l : List Int) (h : l.Nodup) :
    (sortDesc l).Pairwise (fun a b => b < a) := by
  have hn : (sortDesc l).Nodup := (sortDesc_perm l).nodup_iff.mpr h
  have hs := sortDesc_sorted l
  exact (hs.and hn).imp (fun hab => lt_of_le_of_ne hab.1 (Ne.symm hab.2))

theorem gapsOf_pos :
    ∀ l : List Int, l.Pairwise (fun a b => b < a) → ∀ g ∈ gapsOf l, 0 < g := by
  intro l
  induction l with
  | nil => simp [gapsOf]
  | cons x xs ih =>
    cases xs with
    | nil => simp [gapsOf]
    | cons y rest =>
      intro h g hg
      simp only [gapsOf, List.mem_cons] at hg
      rcases hg with rfl | hg
      · have hyx : y < x := (List.pairwise_cons.mp h).1 y (by simp)
        omega
      · exact ih (List.pairwise_cons.mp h).2 g hg

theorem gapsOf_length : ∀ l : List Int, (gapsOf l).length = l.length - 1 := by
  intro l
  induction l with
  | nil => simp [gapsOf]
  | cons x xs ih =>
    cases xs with
    | nil => simp [gapsOf]
    | cons y rest =>
      simp only [gapsOf, List.length_cons] at *
      omega

theorem string_data_append (s t : String) : (s ++ t).data = s.data ++ t.data := by
  cases s; cases t; rfl

theorem everyLabel_head (t : String) :
    ("every-" ++ t ++ "-years").data.head? = some 'e' := by
  show ((("every-" ++ t) ++ "-years")).data.head? = some 'e'
  rw [string_data_append, string_data_append]
  rfl

theorem gapLabel_ne_multi (g : Int) : gapLabel g ≠ "multiple-per-year" := by
  rw [gapLabel]
  split
  · decide
  · split
    · decide
    · split
      · decide
      · split
        · decide
        · split
          · decide
          · split
            · intro h
              have h1 := congrArg (fun s : String => s.data.head?) h
              simp only [everyLabel_head] at h1
              exact absurd h1 (by decide)
            · decide

theorem gapLabel_ne_one_time (g : Int) : gapLabel g ≠ "one-time" := by
  rw [gapLabel]
  split
  · decide
  · split
    · decide
    · split
      · decide
      · split
        · decide
        · split
          · decide
          · split
            · intro h
              have h1 := congrArg (fun s : String => s.data.head?) h
              simp only [everyLabel_head] at h1
              exact absurd h1 (by decide)
            · decide

theorem calcFreq_general_eq (years : List Int)
    (h2 : 2 ≤ (dedupePreserveOrder years).length)
    (hm : multiPerYearCond years = false) :
    calculate_frequency years =
      (gapLabel (mostCommon (weightedGaps (gapsOf (sortDesc (dedupePreserveOrder years))))),
        gapsOf (sortDesc (dedupePreserveOrder years))) := by
  have hlen : ¬ years.length < 2 := by
    have := dedupePreserveOrder_length_le years
    omega
  have hslen : (sortDesc (dedupePreserveOrder years)).length
      = (dedupePreserveOrder years).length :=
    (sortDesc_perm (dedupePreserveOrder years)).length_eq
  have hpos : ∀ g ∈ gapsOf (sortDesc (dedupePreserveOrder years)), 0 < g :=
    gapsOf_pos _ (sortDesc_strict _ (dedupePreserveOrder_nodup years))
  have hfilter : (gapsOf (sortDesc (dedupePreserveOrder years))).filter (fun g => decide (0 < g))
      = gapsOf (sortDesc (dedupePreserveOrder years)) :=
    List.filter_eq_self.mpr (fun g hg => by simpa using hpos g hg)
  have hglen : (gapsOf (sortDesc (dedupePreserveOrder years))).length
      = (dedupePreserveOrder years).length - 1 := by
    rw [gapsOf_length, hslen]
  have hgne : (gapsOf (sortDesc (dedupePreserveOrder years))).isEmpty = false := by
    have hne : gapsOf (sortDesc (dedupePreserveOrder years)) ≠ [] := by
      intro hnil
      rw [hnil] at hglen
      simp at hglen
      omega
    simp [List.isEmpty_iff, hne]
  rw [calculate_frequency]
  rw [if_neg hlen]
  rw [if_neg (by simp [hm])]
  simp only [hgne, hfilter, hslen, Bool.false_eq_true, if_false]
  rw [if_neg (by omega)]

theorem calcFreq_multi_eq (years : List Int)
    (hm : multiPerYearCond years = true) :
    calculate_frequency years =
      ("multiple-per-year", gapsOf (sortDesc (dedupePreserveOrder years))) := by
  have hlen : ¬ years.length < 2 := by
    have h3 : 3 ≤ years.length := by
      have h := hm
      simp only [multiPerYearCond, Bool.and_eq_true, decide_eq_true_eq] at h
      exact h.1.1
    omega
  rw [calculate_frequency, if_neg hlen, if_pos hm]

theorem multiPerYearCond_iff (years : List Int)
    (h3 : 3 ≤ years.length) (h2 : 2 ≤ (dedupePreserveOrder years).length) :
    multiPerYearCond years = true ↔
      (2 ≤ (years.length : Rat) / (dedupePreserveOrder years).length ∨
        (3 / 2 ≤ (years.length : Rat) / (dedupePreserveOrder years).length ∧
          2 / 5 ≤ (yearsWithMultiple years : Rat) / (dedupePreserveOrder years).length)) := by
  have hu : (0 : Rat) < ((dedupePreserveOrder years).length : Rat) := by
    have h0 : 0 < (dedupePreserveOrder years).length := by omega
    exact_mod_cast h0
  have e1 : (2 ≤ (years.length : Rat) / (dedupePreserveOrder years).length)
      ↔ (2 * (dedupePreserveOrder years).length ≤ years.length) := by
    rw [le_div_iff₀ hu]
    constructor
    · intro h
      have h' : (2 : Rat) * (dedupePreserveOrder years).length ≤ years.length := by linarith
      exact_mod_cast h'
    · intro h
      have h' : (2 : Rat) * (dedupePreserveOrder years).length ≤ years.length := by
        exact_mod_cast h
      linarith
  have e2 : ((3 : Rat) / 2 ≤ (years.length : Rat) / (dedupePreserveOrder years).length)
      ↔ (3 * (dedupePreserveOrder years).length ≤ 2 * years.length) := by
    rw [div_le_div_iff₀ (by norm_num) hu]
    constructor
    · intro h
      have h' : (3 : Rat) * (dedupePreserveOrder years).length ≤ 2 * years.length := by linarith
      exact_mod_cast h'
    · intro h
      have h' : (3 : Rat) * (dedupePreserveOrder years).length ≤ 2 * years.length := by
        exact_mod_cast h
      linarith
  have e3 : ((2 : Rat) / 5 ≤ (yearsWithMultiple years : Rat) / (dedupePreserveOrder years).length)
      ↔ (2 * (dedupePreserveOrder years).length ≤ 5 * yearsWithMultiple years) := by
    rw [div_le_div_iff₀ (by norm_num) hu]
    constructor
    · intro h
      have h' : (2 : Rat) * (dedupePreserveOrder years).length
          ≤ 5 * yearsWithMultiple years := by linarith
      exact_mod_cast h'
    · intro h
      have h' : (2 : Rat) * (dedupePreserveOrder years).length
          ≤ 5 * yearsWithMultiple years := by exact_mod_cast h
      linarith
  simp only [multiPerYearCond, Bool.and_eq_true, Bool.or_eq_true, decide_eq_true_eq]
  constructor
  · rintro ⟨⟨-, -⟩, hc⟩
    exact hc.imp e1.mpr (fun hb => ⟨e2.mpr hb.1, e3.mpr hb.2⟩)
  · intro hc
    exact ⟨⟨h3, h2⟩, hc.imp e1.mp (fun hb => ⟨e2.mp hb.1, e3.mp hb.2⟩)⟩

/-- Claim C2: for years with at least 2 distinct values that do not trigger the
multiple-per-year branch, `calculate_frequency` computes consecutive gaps over
the deduplicated, descending-sorted years, weights the i-th gap by
`max 1 (3 - i)` (via `weightedGaps`), takes the most frequent weighted gap
(`mostCommon`), maps it through the label table `gapLabel`
(1 annual, ..., 5 quinquennial, 6-10 every-N-years, above 10 irregular), and
returns the raw unfiltered gap list as the gap history; in particular
`[2024, 2011]` yields `("irregular", [13])`. -/
theorem calculate_frequency_general_branch (years : List Int)
    (h2 : 2 ≤ (dedupePreserveOrder years).length)
    (hm : multiPerYearCond years = false) :
    calculate_frequency years =
      (gapLabel (mostCommon (weightedGaps (gapsOf (sortDesc (dedupePreserveOrder years))))),
        gapsOf (sortDesc (dedupePreserveOrder years))) ∧
    calculate_frequency [2024, 2011] = ("irregular", [13]) :=
  ⟨calcFreq_general_eq years h2 hm, by decide⟩

theorem calculate_frequency_general_branch_witness :
    2 ≤ (dedupePreserveOrder ([2024, 2011] : List Int)).length ∧
    multiPerYearCond [2024, 2011] = false ∧
    calculate_frequency [2024, 2011] = ("irregular", [13]) :=
  ⟨by decide, by decide,
    (calculate_frequency_general_branch [2024, 2011] (by decide) (by decide)).2⟩

/-- Claim C3: for years with total count at least 3 and at least 2 distinct
years, `calculate_frequency` returns the label `"multiple-per-year"` exactly
when `total/unique ≥ 2`, or `total/unique ≥ 1.5` and the fraction of distinct
years with more than one observation is at least `0.4`; in that case the gap
history is computed on the deduplicated, descending-sorted distinct years; in
particular `[2024, 2024, 2023, 2023, 2022]` yields `"multiple-per-year"`. -/
theorem calculate_frequency_multi_per_year (years : List Int)
    (h3 : 3 ≤ years.length) (h2 : 2 ≤ (dedupePreserveOrder years).length) :
    ((calculate_frequency years).1 = "multiple-per-year" ↔
      (2 ≤ (years.length : Rat) / (dedupePreserveOrder years).length ∨
        (3 / 2 ≤ (years.length : Rat) / (dedupePreserveOrder years).length ∧
          2 / 5 ≤ (yearsWithMultiple years : Rat) / (dedupePreserveOrder years).length))) ∧
    (multiPerYearCond years = true →
      calculate_frequency years =
        ("multiple-per-year", gapsOf (sortDesc (dedupePreserveOrder years)))) ∧
    calculate_frequency [2024, 2024, 2023, 2023, 2022] = ("multiple-per-year", [1, 1]) := by
  refine ⟨?_, fun hm => calcFreq_multi_eq years hm, by decide⟩
  rw [← multiPerYearCond_iff years h3 h2]
  constructor
  · intro hl
    by_contra hm
    have hm' : multiPerYearCond years = false := by
      cases hmv : multiPerYearCond years
      · rfl
      · exact absurd hmv hm
    rw [calcFreq_general_eq years h2 hm'] at hl
    exact gapLabel_ne_multi _ hl
  · intro hm
    rw [calcFreq_multi_eq years hm]

theorem calculate_frequency_multi_per_year_witness :
    3 ≤ ([2024, 2024, 2023, 2023, 2022] : List Int).length ∧
    2 ≤ (dedupePreserveOrder ([2024, 2024, 2023, 2023, 2022] : List Int)).length ∧
    calculate_frequency [2024, 2024, 2023, 2023, 2022] = ("multiple-per-year", [1, 1]) :=
  ⟨by decide, by decide,
    (calculate_frequency_multi_per_year [2024, 2024, 2023, 2023, 2022]
      (by decide) (by decide)).2.2⟩

/-- Claim C10: whenever the deduplicated, descending-sorted years have at least
2 elements, every consecutive gap is strictly positive, so the non-positive-gap
filter removes nothing, the gap list is nonempty, and the one-time fallback
branches of `calculate_frequency` are unreachable (the result is never
`"one-time"`). -/
theorem gaps_always_positive (years : List Int)
    (h2 : 2 ≤ (dedupePreserveOrder years).length) :
    (∀ g ∈ gapsOf (sortDesc (dedupePreserveOrder years)), 0 < g) ∧
    (gapsOf (sortDesc (dedupePreserveOrder years))).filter (fun g => decide (0 < g))
      = gapsOf (sortDesc (dedupePreserveOrder years)) ∧
    gapsOf (sortDesc (dedupePreserveOrder years)) ≠ [] ∧
    (calculate_frequency years).1 ≠ "one-time" := by
  have hpos : ∀ g ∈ gapsOf (sortDesc (dedupePreserveOrder years)), 0 < g :=
    gapsOf_pos _ (sortDesc_strict _ (dedupePreserveOrder_nodup years))
  have hslen : (sortDesc (dedupePreserveOrder years)).length
      = (dedupePreserveOrder years).length :=
    (sortDesc_perm (dedupePreserveOrder years)).length_eq
  have hglen : (gapsOf (sortDesc (dedupePreserveOrder years))).length
      = (dedupePreserveOrder years).length - 1 := by
    rw [gapsOf_length, hslen]
  have hgne : gapsOf (sortDesc (dedupePreserveOrder years)) ≠ [] := by
    intro hnil
    rw [hnil] at hglen
    simp at hglen
    omega
  refine ⟨hpos, List.filter_eq_self.mpr (fun g hg => by simpa using hpos g hg), hgne, ?_⟩
  cases hmv : multiPerYearCond years
  · rw [calcFreq_general_eq years h2 hmv]
    exact gapLabel_ne_one_time _
  · rw [calcFreq_multi_eq years hmv]
    show ("multiple-per-year" : String) ≠ "one-time"
    decide

theorem gaps_always_positive_witness :
    2 ≤ (dedupePreserveOrder ([2024, 2011] : List Int)).length ∧
    (calculate_frequency [2024, 2011]).1 ≠ "one-time" :=
  ⟨by decide, (gaps_always_positive [2024, 2011] (by decide)).2.2.2⟩

/-! ## Shape enforcement lemmas and Claims C4, C5 -/

theorem mapExcept_scalarize (col : String) :
    ∀ L : List (List String), (∀ l ∈ L, l.length ≤ 1) →
      mapExcept (fun l => unpack_scalar col (Cell.list l)) L = Except.ok (L.map scalarizeRow) := by
  intro L
  induction L with
  | nil => intro _; rfl
  | cons l ls ih =>
    intro h
    have hl : l.length ≤ 1 := h l (by simp)
    have hrec := ih (fun x hx => h x (List.mem_cons_of_mem l hx))
    match l, hl with
    | [], _ =>
      have h1 : unpack_scalar col (Cell.list ([] : List String))
          = Except.ok (Cell.na : Cell String) := rfl
      simp only [mapExcept, h1, hrec]
      rfl
    | [x], _ =>
      have h1 : unpack_scalar col (Cell.list [x]) = Except.ok (Cell.scalar x) := rfl
      simp only [mapExcept, h1, hrec]
      rfl

/-- Claim C4 counterexample: a cell of an always-scalar column whose
deduplicated list has length 1 (namely `["x", "x"]`, which dedupes to `["x"]`)
is NOT unwrapped to the bare value: `_unpack_scalar` receives the raw
two-element list and raises, because always-scalar columns are never
deduplicated before unpacking. -/
theorem always_scalar_dedup_counterexample :
    (dedupePreserveOrder ["x", "x"]).length = 1 ∧
    "proper_title" ∈ ALWAYS_SCALAR ∧
    cleanAlwaysScalarColumn "proper_title" [Cell.list ["x", "x"]]
      = Except.error (scalarErrMsg "proper_title" 2) ∧
    cleanAlwaysScalarColumn "proper_title" [Cell.list ["x", "x"]]
      ≠ Except.ok [Cell.scalar "x"] := by
  refine ⟨rfl, by decide, rfl, ?_⟩
  intro h
  exact Except.noConfusion h

/-- Claim C4 (amended): for an always-scalar column, shape enforcement applies
`_unpack_scalar` to the raw cell without any deduplication: the empty list
becomes null, a one-element list unwraps to the bare value, non-lists pass
through, and any list of length 2 or more (even one whose elements are all
equal) raises the shape-violation error naming the offending column; the
violation is never resolved by keeping only the first value. -/
theorem always_scalar_no_dedupe (col : String) (x y : String) (l : List String) :
    unpack_scalar col (Cell.list ([] : List String)) = Except.ok Cell.na ∧
    unpack_scalar col (Cell.list [x]) = Except.ok (Cell.scalar x) ∧
    unpack_scalar col (Cell.na : Cell String) = Except.ok Cell.na ∧
    unpack_scalar col (Cell.scalar x) = Except.ok (Cell.scalar x) ∧
    unpack_scalar col (Cell.list (x :: y :: l))
      = Except.error (scalarErrMsg col (x :: y :: l).length) ∧
    (∀ v, unpack_scalar col (Cell.list (x :: y :: l)) ≠ Except.ok v) ∧
    cleanAlwaysScalarColumn col [Cell.list ([] : List String), Cell.list [x]]
      = Except.ok [Cell.na, Cell.scalar x] ∧
    cleanAlwaysScalarColumn col [Cell.list (x :: y :: l)]
      = Except.error (scalarErrMsg col (x :: y :: l).length) := by
  refine ⟨rfl, rfl, rfl, rfl, rfl, ?_, rfl, rfl⟩
  intro v h
  exact Except.noConfusion h

/-- Claim C5 counterexample: on an empty batch, every row's deduplicated list
vacuously has length at most 1, yet the candidate-scalar column is NOT demoted
to scalar: pandas's `max` over the empty length series is `NaN`, `NaN <= 1` is
false, and strict mode raises (lenient mode warns and keeps the list column). -/
theorem candidate_scalar_empty_counterexample :
    (∀ l ∈ ([] : List (Cell String)).map (fun v => dedupePreserveOrder (to_list v)),
      l.length ≤ 1) ∧
    "note" ∈ CANDIDATE_SCALAR_FROM_LIST ∧
    cleanCandidateScalarColumn true "note" ([] : List (Cell String))
      = Except.error (candidateErrMsg "note" []) ∧
    (∀ out, cleanCandidateScalarColumn true "note" ([] : List (Cell String))
      ≠ Except.ok out) := by
  refine ⟨by simp, by decide, rfl, ?_⟩
  intro out h
  exact Except.noConfusion h

/-- Claim C5 (amended): for a candidate-scalar column, every cell is normalized
to a list and deduplicated preserving first occurrence; the column is demoted
to scalar exactly when the batch is nonempty and every row's deduplicated list
has length at most 1 (an empty batch is not demoted, because pandas's `max`
over an empty length series is `NaN`); otherwise the entire column is kept as
the deduplicated list column, with an error in strict mode and a warning in
lenient mode -- no row is ever partially scalarized. -/
theorem candidate_scalar_all_or_nothing (strict : Bool) (col : String)
    (cells : List (Cell String)) :
    (cells ≠ [] →
      (∀ l ∈ cells.map (fun v => dedupePreserveOrder (to_list v)), l.length ≤ 1) →
      cleanCandidateScalarColumn strict col cells =
        Except.ok (cells.map (fun v => scalarizeRow (dedupePreserveOrder (to_list v))), false)) ∧
    ((∃ l ∈ cells.map (fun v => dedupePreserveOrder (to_list v)), 1 < l.length) →
      cleanCandidateScalarColumn true col cells =
        Except.error (candidateErrMsg col
          ((((cells.map (fun v => dedupePreserveOrder (to_list v))).enum.filter
            (fun p => decide (1 < p.2.length))).map (fun p => p.1)).take 10)) ∧
      cleanCandidateScalarColumn false col cells =
        Except.ok ((cells.map (fun v => Cell.list (dedupePreserveOrder (to_list v)))), true)) := by
  constructor
  · intro hne hall
    have hsne : cells.map (fun v => dedupePreserveOrder (to_list v)) ≠ [] := by
      simpa using hne
    have hcond : (!(cells.map (fun v => dedupePreserveOrder (to_list v))).isEmpty &&
        (cells.map (fun v => dedupePreserveOrder (to_list v))).all
          (fun l => decide (l.length ≤ 1))) = true := by
      simp only [Bool.and_eq_true, Bool.not_eq_true', List.all_eq_true]
      refine ⟨?_, fun l hl => by simpa using hall l hl⟩
      simp [List.isEmpty_iff, hsne]
    rw [cleanCandidateScalarColumn, if_pos hcond,
      mapExcept_scalarize col _ hall, List.map_map]
    rfl
  · rintro ⟨l, hl, hlen⟩
    have hcond : (!(cells.map (fun v => dedupePreserveOrder (to_list v))).isEmpty &&
        (cells.map (fun v => dedupePreserveOrder (to_list v))).all
          (fun l => decide (l.length ≤ 1))) = false := by
      simp only [Bool.and_eq_false_iff, List.all_eq_false]
      right
      exact ⟨l, hl, by simpa using hlen⟩
    constructor
    · rw [cleanCandidateScalarColumn, if_neg (by simp [hcond])]
      rfl
    · rw [cleanCandidateScalarColumn, if_neg (by simp [hcond])]
      simp [List.map_map]

theorem candidate_scalar_all_or_nothing_witness :
    cleanCandidateScalarColumn false "note" [Cell.list ["a", "b", "a"]]
      = Except.ok ([Cell.list ["a", "b"]], true) :=
  ((candidate_scalar_all_or_nothing false "note" [Cell.list ["a", "b", "a"]]).2
    (by decide)).2

/-! ## Category inference: Claim C9 -/

/-- Claim C9 counterexample: category inference does NOT default to `"report"`
on every input where no rule fires.  A null/missing (or empty) symbol yields
`"other"`, and a resource type containing `"note verbale"` (but none of the
substrings `"resolution"`, `"report"`, `"letter"`) yields `"letter"`. -/
theorem infer_document_category_counterexample :
    infer_document_category none none = "other" ∧
    ("other" : String) ≠ "report" ∧
    infer_document_category (some "X/2024/5") (some ["Note Verbale"]) = "letter" ∧
    ("letter" : String) ≠ "report" := by
  refine ⟨rfl, by decide, by decide, by decide⟩

/-- Claim C9 (amended): with no explicit override, category inference returns
`"other"` for a null/missing or empty symbol; otherwise `"resolution"` when the
uppercased symbol starts with a prefix of the fixed resolution-prefix table;
otherwise it inspects the space-joined, lowercased resource-type text for
`"resolution"` / `"report"` / `"letter"`-or-`"note verbale"` substrings in
that order; otherwise (including a null or empty resource-type list) it
defaults to `"report"`. -/
theorem infer_document_category_cases (sym : String) (rt3 : Option (List String)) :
    (infer_document_category none rt3 = "other") ∧
    (infer_document_category (some "") rt3 = "other") ∧
    (sym ≠ "" →
      RESOLUTION_SYMBOL_STARTS.any (fun p => p.data.isPrefixOf (pyUpper sym).data) = true →
      infer_document_category (some sym) rt3 = "resolution") ∧
    (sym ≠ "" →
      RESOLUTION_SYMBOL_STARTS.any (fun p => p.data.isPrefixOf (pyUpper sym).data) = false →
      (rt3 = none ∨ rt3 = some []) →
      infer_document_category (some sym) rt3 = "report") ∧
    (∀ l, sym ≠ "" →
      RESOLUTION_SYMBOL_STARTS.any (fun p => p.data.isPrefixOf (pyUpper sym).data) = false →
      rt3 = some l → l ≠ [] →
      infer_document_category (some sym) rt3 =
        (if containsSubstr (pyLower (joinSpace l)).data "resolution".data then "resolution"
         else if containsSubstr (pyLower (joinSpace l)).data "report".data then "report"
         else if (containsSubstr (pyLower (joinSpace l)).data "letter".data
              || containsSubstr (pyLower (joinSpace l)).data "note verbale".data) then "letter"
         else "report")) := by
  refine ⟨rfl, ?_, ?_, ?_, ?_⟩
  · simp [infer_document_category]
  · intro hne hpre
    simp only [infer_document_category]
    rw [if_neg hne, if_pos hpre]
  · intro hne hpre hrt
    simp only [infer_document_category]
    rw [if_neg hne]
    rw [if_neg (by simp [hpre])]
    rcases hrt with rfl | rfl
    · rfl
    · rfl
  · intro l hne hpre hrt hlne
    subst hrt
    simp only [infer_document_category]
    rw [if_neg hne]
    rw [if_neg (by simp [hpre])]
    have hie : l.isEmpty = false := by simp [List.isEmpty_iff, hlne]
    simp only [hie, Bool.false_eq_true, if_false]
    by_cases c3 : containsSubstr (pyLower (joinSpace l)).data "letter".data
    · simp [c3]
    · by_cases c4 : containsSubstr (pyLower (joinSpace l)).data "note verbale".data
      · simp [c3, c4]
      · simp [c3, c4]

theorem infer_document_category_cases_witness :
    infer_document_category (some "A/RES/78/70") none = "resolution" :=
  (infer_document_category_cases "A/RES/78/70" none).2.2.1 (by decide) (by decide)

/-! ## SequenceMatcher lemmas and Claim C7 -/

theorem foldlPreserve {α β : Type} (P : β → Prop) (f : β → α → β) :
    ∀ (l : List α) (init : β), P init →
      (∀ acc x, x ∈ l → P acc → P (f acc x)) → P (l.foldl f init) := by
  intro l
  induction l with
  | nil => intro init h0 _; exact h0
  | cons x xs ih =>
    intro init h0 hstep
    exact ih (f init x) (hstep init x (by simp) h0)
      (fun acc y hy hacc => hstep acc y (by simp [hy]) hacc)

theorem commonCleanLen_le_left (pop : Char → Bool) :
    ∀ xs ys : List Char, commonCleanLen pop xs ys ≤ xs.length := by
  intro xs
  induction xs with
  | nil => intro ys; cases ys <;> simp [commonCleanLen]
  | cons x xs ih =>
    intro ys
    cases ys with
    | nil => simp [commonCleanLen]
    | cons y ys =>
      simp only [commonCleanLen, List.length_cons]
      split
      · have := ih ys
        omega
      · omega

theorem commonCleanLen_le_right (pop : Char → Bool) :
    ∀ xs ys : List Char, commonCleanLen pop xs ys ≤ ys.length := by
  intro xs
  induction xs with
  | nil => intro ys; cases ys <;> simp [commonCleanLen]
  | cons x xs ih =>
    intro ys
    cases ys with
    | nil => simp [commonCleanLen]
    | cons y ys =>
      simp only [commonCleanLen, List.length_cons]
      split
      · have := ih ys
        omega
      · omega

theorem backCleanLen_le_a (a b : List Char) (pop : Char → Bool) (alo blo ei ej : Nat) :
    backCleanLen a b pop alo blo ei ej ≤ min (ei + 1) a.length - alo := by
  have h := commonCleanLen_le_left pop (((a.take (ei + 1)).drop alo).reverse)
    (((b.take (ej + 1)).drop blo).reverse)
  simpa using h

theorem backCleanLen_le_b (a b : List Char) (pop : Char → Bool) (alo blo ei ej : Nat) :
    backCleanLen a b pop alo blo ei ej ≤ min (ej + 1) b.length - blo := by
  have h := commonCleanLen_le_right pop (((a.take (ei + 1)).drop alo).reverse)
    (((b.take (ej + 1)).drop blo).reverse)
  simpa using h

theorem flmDP_valid (a b : List Char) (pop : Char → Bool) (alo ahi blo bhi : Nat)
    (ha : ahi ≤ a.length) (hb : bhi ≤ b.length) (halo : alo ≤ ahi) (hblo : blo ≤ bhi) :
    alo ≤ (flmDP a b pop alo ahi blo bhi).1 ∧
    blo ≤ (flmDP a b pop alo ahi blo bhi).2.1 ∧
    (flmDP a b pop alo ahi blo bhi).1 + (flmDP a b pop alo ahi blo bhi).2.2 ≤ ahi ∧
    (flmDP a b pop alo ahi blo bhi).2.1 + (flmDP a b pop alo ahi blo bhi).2.2 ≤ bhi := by
  rw [flmDP]
  apply foldlPreserve
    (P := fun r : Nat × Nat × Nat => alo ≤ r.1 ∧ blo ≤ r.2.1 ∧ r.1 + r.2.2 ≤ ahi ∧ r.2.1 + r.2.2 ≤ bhi)
  · exact ⟨le_refl _, le_refl _, by dsimp only; omega, by dsimp only; omega⟩
  · intro acc ei hei hacc
    have hei' : alo ≤ ei ∧ ei < ahi := by
      have h := List.mem_range'_1.mp hei
      omega
    apply foldlPreserve
      (P := fun r : Nat × Nat × Nat => alo ≤ r.1 ∧ blo ≤ r.2.1 ∧ r.1 + r.2.2 ≤ ahi ∧ r.2.1 + r.2.2 ≤ bhi)
    · exact hacc
    · intro acc2 ej hej hacc2
      have hej' : blo ≤ ej ∧ ej < bhi := by
        have h := List.mem_range'_1.mp hej
        omega
      dsimp only
      by_cases hk : acc2.2.2 < backCleanLen a b pop alo blo ei ej
      · rw [if_pos hk]
        have hka := backCleanLen_le_a a b pop alo blo ei ej
        have hkb := backCleanLen_le_b a b pop alo blo ei ej
        have hmina : min (ei + 1) a.length = ei + 1 := by omega
        have hminb : min (ej + 1) b.length = ej + 1 := by omega
        rw [hmina] at hka
        rw [hminb] at hkb
        refine ⟨by dsimp only; omega, by dsimp only; omega, by dsimp only; omega,
          by dsimp only; omega⟩
      · rw [if_neg hk]
        exact hacc2

theorem extendLeft_valid (a b : List Char) (alo blo ahi bhi : Nat) :
    ∀ (f : Nat) (r : Nat × Nat × Nat),
      alo ≤ r.1 → blo ≤ r.2.1 → r.1 + r.2.2 ≤ ahi → r.2.1 + r.2.2 ≤ bhi →
      alo ≤ (extendLeft a b alo blo f r).1 ∧
      blo ≤ (extendLeft a b alo blo f r).2.1 ∧
      (extendLeft a b alo blo f r).1 + (extendLeft a b alo blo f r).2.2 ≤ ahi ∧
      (extendLeft a b alo blo f r).2.1 + (extendLeft a b alo blo f r).2.2 ≤ bhi := by
  intro f
  induction f with
  | zero =>
    intro r h1 h2 h3 h4
    simp only [extendLeft]
    exact ⟨h1, h2, h3, h4⟩
  | succ f ih =>
    rintro ⟨i, j, k⟩ h1 h2 h3 h4
    simp only [extendLeft]
    by_cases hc : (decide (alo < i) && decide (blo < j) && matchAt a b (i - 1) (j - 1)) = true
    · rw [if_pos hc]
      simp only [Bool.and_eq_true, decide_eq_true_eq] at hc
      dsimp only at h1 h2 h3 h4
      exact ih (i - 1, j - 1, k + 1) (by dsimp only; omega) (by dsimp only; omega)
        (by dsimp only; omega) (by dsimp only; omega)
    · rw [if_neg hc]
      exact ⟨h1, h2, h3, h4⟩

theorem extendRight_valid (a b : List Char) (alo blo ahi bhi : Nat) :
    ∀ (f : Nat) (r : Nat × Nat × Nat),
      alo ≤ r.1 → blo ≤ r.2.1 → r.1 + r.2.2 ≤ ahi → r.2.1 + r.2.2 ≤ bhi →
      alo ≤ (extendRight a b ahi bhi f r).1 ∧
      blo ≤ (extendRight a b ahi bhi f r).2.1 ∧
      (extendRight a b ahi bhi f r).1 + (extendRight a b ahi bhi f r).2.2 ≤ ahi ∧
      (extendRight a b ahi bhi f r).2.1 + (extendRight a b ahi bhi f r).2.2 ≤ bhi := by
  intro f
  induction f with
  | zero =>
    intro r h1 h2 h3 h4
    simp only [extendRight]
    exact ⟨h1, h2, h3, h4⟩
  | succ f ih =>
    rintro ⟨i, j, k⟩ h1 h2 h3 h4
    simp only [extendRight]
    by_cases hc : (decide (i + k < ahi) && decide (j + k < bhi) && matchAt a b (i + k) (j + k)) = true
    · rw [if_pos hc]
      simp only [Bool.and_eq_true, decide_eq_true_eq] at hc
      dsimp only at h1 h2 h3 h4
      exact ih (i, j, k + 1) (by dsimp only; omega) (by dsimp only; omega)
        (by dsimp only; omega) (by dsimp only; omega)
    · rw [if_neg hc]
      exact ⟨h1, h2, h3, h4⟩

theorem flm_valid (a b : List Char) (pop : Char → Bool) (alo ahi blo bhi : Nat)
    (ha : ahi ≤ a.length) (hb : bhi ≤ b.length) (halo : alo ≤ ahi) (hblo : blo ≤ bhi) :
    alo ≤ (find_longest_match a b pop alo ahi blo bhi).1 ∧
    blo ≤ (find_longest_match a b pop alo ahi blo bhi).2.1 ∧
    (find_longest_match a b pop alo ahi blo bhi).1
      + (find_longest_match a b pop alo ahi blo bhi).2.2 ≤ ahi ∧
    (find_longest_match a b pop alo ahi blo bhi).2.1
      + (find_longest_match a b pop alo ahi blo bhi).2.2 ≤ bhi := by
  rw [find_longest_match]
  obtain ⟨d1, d2, d3, d4⟩ := flmDP_valid a b pop alo ahi blo bhi ha hb halo hblo
  obtain ⟨l1, l2, l3, l4⟩ := extendLeft_valid a b alo blo ahi bhi
    (flmDP a b pop alo ahi blo bhi).1 (flmDP a b pop alo ahi blo bhi) d1 d2 d3 d4
  exact extendRight_valid a b alo blo ahi bhi _ _ l1 l2 l3 l4

theorem matchingTotal_le (a b : List Char) (pop : Char → Bool) :
    ∀ (f alo ahi blo bhi : Nat), ahi ≤ a.length → bhi ≤ b.length → alo ≤ ahi → blo ≤ bhi →
      matchingTotal a b pop f alo ahi blo bhi ≤ min (ahi - alo) (bhi - blo) := by
  intro f
  induction f with
  | zero =>
    intro alo ahi blo bhi _ _ _ _
    simp [matchingTotal]
  | succ f ih =>
    intro alo ahi blo bhi ha hb halo hblo
    simp only [matchingTotal]
    obtain ⟨v1, v2, v3, v4⟩ := flm_valid a b pop alo ahi blo bhi ha hb halo hblo
    by_cases hk : (find_longest_match a b pop alo ahi blo bhi).2.2 = 0
    · rw [if_pos hk]
      omega
    · rw [if_neg hk]
      have hL := ih alo (find_longest_match a b pop alo ahi blo bhi).1
        blo (find_longest_match a b pop alo ahi blo bhi).2.1
        (by omega) (by omega) v1 v2
      have hR := ih ((find_longest_match a b pop alo ahi blo bhi).1
          + (find_longest_match a b pop alo ahi blo bhi).2.2) ahi
        ((find_longest_match a b pop alo ahi blo bhi).2.1
          + (find_longest_match a b pop alo ahi blo bhi).2.2) bhi
        ha hb (by omega) (by omega)
      omega

theorem matchingTotal_fuel_irrelevant (a b : List Char) (pop : Char → Bool) :
    ∀ (f g alo ahi blo bhi : Nat), ahi ≤ a.length → bhi ≤ b.length → alo ≤ ahi → blo ≤ bhi →
      ahi - alo < f → ahi - alo < g →
      matchingTotal a b pop f alo ahi blo bhi = matchingTotal a b pop g alo ahi blo bhi := by
  intro f
  induction f with
  | zero =>
    intro g alo ahi blo bhi _ _ _ _ hf _
    omega
  | succ f ih =>
    intro g alo ahi blo bhi ha hb halo hblo hf hg
    cases g with
    | zero => omega
    | succ g =>
      simp only [matchingTotal]
      obtain ⟨v1, v2, v3, v4⟩ := flm_valid a b pop alo ahi blo bhi ha hb halo hblo
      by_cases hk : (find_longest_match a b pop alo ahi blo bhi).2.2 = 0
      · rw [if_pos hk, if_pos hk]
      · rw [if_neg hk, if_neg hk]
        have e1 := ih g alo (find_longest_match a b pop alo ahi blo bhi).1
          blo (find_longest_match a b pop alo ahi blo bhi).2.1
          (by omega) (by omega) v1 v2 (by omega) (by omega)
        have e2 := ih g ((find_longest_match a b pop alo ahi blo bhi).1
            + (find_longest_match a b pop alo ahi blo bhi).2.2) ahi
          ((find_longest_match a b pop alo ahi blo bhi).2.1
            + (find_longest_match a b pop alo ahi blo bhi).2.2) bhi
          ha hb (by omega) (by omega) (by omega) (by omega)
        rw [e1, e2]

/-- Claim C7 counterexample: the similarity score is not symmetric:
`fuzzy_match_score("tide", "diet") = 0.25` but
`fuzzy_match_score("diet", "tide") = 0.5` (the same values CPython's
`difflib.SequenceMatcher` produces, since the longest-match tie-breaks depend
on argument order). -/
theorem fuzzy_match_score_not_symmetric :
    fuzzy_match_score "tide".data "diet".data = mkRat 1 4 ∧
    fuzzy_match_score "diet".data "tide".data = mkRat 1 2 ∧
    fuzzy_match_score "tide".data "diet".data ≠ fuzzy_match_score "diet".data "tide".data := by
  refine ⟨by decide, by decide, by decide⟩

/-- Claim C7 (amended): for all strings s1, s2 the fuzzy similarity score lies
in the range [0, 1]; symmetry, however, does not hold in general (see the
counterexample). -/
theorem fuzzy_match_score_range (s1 s2 : List Char) :
    0 ≤ fuzzy_match_score s1 s2 ∧ fuzzy_match_score s1 s2 ≤ 1 := by
  rw [fuzzy_match_score]
  by_cases h : s1.length + s2.length = 0
  · rw [if_pos h]
    norm_num
  · rw [if_neg h]
    have hM := matchingTotal_le s1 s2 (popularB s2) (s1.length + 1) 0 s1.length 0 s2.length
      (le_refl _) (le_refl _) (by omega) (by omega)
    rw [Rat.mkRat_eq_div]
    constructor
    · apply div_nonneg
      · exact_mod_cast Int.ofNat_nonneg _
      · exact_mod_cast Nat.zero_le _
    · rw [div_le_one (by positivity)]
      have hle : 2 * (matchingTotal s1 s2 (popularB s2) (s1.length + 1) 0 s1.length 0 s2.length)
          ≤ s1.length + s2.length := by omega
      exact_mod_cast hle

/-! ## Fuzzy matcher lemmas and Claim C6 -/

theorem bestMatchAux_spec (q : String) :
    ∀ (cands : List DbRow) (acc : Rat × Option DbRow), 0 ≤ acc.1 →
      0 ≤ (cands.foldl (fun acc c =>
          if acc.1 < scoreOf q c then (scoreOf q c, some c) else acc) acc).1 ∧
      acc.1 ≤ (cands.foldl (fun acc c =>
          if acc.1 < scoreOf q c then (scoreOf q c, some c) else acc) acc).1 ∧
      (∀ c ∈ cands, scoreOf q c ≤ (cands.foldl (fun acc c =>
          if acc.1 < scoreOf q c then (scoreOf q c, some c) else acc) acc).1) ∧
      ((cands.foldl (fun acc c =>
          if acc.1 < scoreOf q c then (scoreOf q c, some c) else acc) acc) = acc ∨
        ∃ c, c ∈ cands ∧
          (cands.foldl (fun acc c =>
            if acc.1 < scoreOf q c then (scoreOf q c, some c) else acc) acc).2 = some c ∧
          (cands.foldl (fun acc c =>
            if acc.1 < scoreOf q c then (scoreOf q c, some c) else acc) acc).1 = scoreOf q c) := by
  intro cands
  induction cands with
  | nil =>
    intro acc h0
    exact ⟨h0, le_refl _, by simp, Or.inl rfl⟩
  | cons c cs ih =>
    intro acc h0
    simp only [List.foldl_cons]
    by_cases hlt : acc.1 < scoreOf q c
    · rw [if_pos hlt]
      obtain ⟨r0, rge, rub, rcase⟩ := ih (scoreOf q c, some c) (by dsimp only; linarith)
      dsimp only at rge
      refine ⟨r0, by linarith, ?_, ?_⟩
      · intro c' hc'
        rcases List.mem_cons.mp hc' with rfl | hc'
        · exact rge
        · exact rub c' hc'
      · rcases rcase with heq | ⟨c', hc', h2, h1⟩
        · exact Or.inr ⟨c, by simp, by rw [heq], by rw [heq]⟩
        · exact Or.inr ⟨c', List.mem_cons_of_mem c hc', h2, h1⟩
    · rw [if_neg hlt]
      obtain ⟨r0, rge, rub, rcase⟩ := ih acc h0
      refine ⟨r0, rge, ?_, ?_⟩
      · intro c' hc'
        rcases List.mem_cons.mp hc' with rfl | hc'
        · exact le_trans (le_of_not_lt hlt) rge
        · exact rub c' hc'
      · rcases rcase with heq | ⟨c', hc', h2, h1⟩
        · exact Or.inl heq
        · exact Or.inr ⟨c', List.mem_cons_of_mem c hc', h2, h1⟩

theorem bestMatch_nonneg (q : String) (cands : List DbRow) : 0 ≤ (bestMatch q cands).1 :=
  (bestMatchAux_spec q cands (0, none) (by norm_num)).1

theorem bestMatch_ub (q : String) (cands : List DbRow) :
    ∀ c ∈ cands, scoreOf q c ≤ (bestMatch q cands).1 :=
  (bestMatchAux_spec q cands (0, none) (by norm_num)).2.2.1

theorem bestMatch_none (q : String) (cands : List DbRow)
    (h : (bestMatch q cands).2 = none) : (bestMatch q cands).1 = 0 := by
  rcases (bestMatchAux_spec q cands (0, none) (by norm_num)).2.2.2 with heq | ⟨c, _, h2, _⟩
  · rw [bestMatch, heq]
  · rw [bestMatch] at h
    rw [h] at h2
    exact Option.noConfusion h2

theorem bestMatch_some (q : String) (cands : List DbRow) (c : DbRow)
    (h : (bestMatch q cands).2 = some c) :
    c ∈ cands ∧ (bestMatch q cands).1 = scoreOf q c := by
  rcases (bestMatchAux_spec q cands (0, none) (by norm_num)).2.2.2 with heq | ⟨c', hc', h2, h1⟩
  · rw [bestMatch] at h
    rw [heq] at h
    exact Option.noConfusion h
  · rw [bestMatch] at h
    rw [h] at h2
    have hcc : c' = c := (Option.some.inj h2).symm
    subst hcc
    exact ⟨hc', h1⟩

theorem driCandidates_subset (db : List DbRow) (q : String) :
    ∀ r ∈ driCandidates db q, r ∈ db := by
  intro r hr
  simp only [driCandidates] at hr
  by_cases he : (db.filter (fun r =>
      decide (2 ≤ ((get_title_words q).filter
        (fun w => decide (w ∈ get_title_words r.norm_title))).length))).isEmpty = true
  · rw [if_pos he] at hr
    exact List.take_subset 50 db hr
  · rw [if_neg he] at hr
    exact List.filter_subset' db hr

set_option maxRecDepth 400000 in
/-- Claim C6: for every grouped external roster row with nonempty normalized
title and a nonempty entity from the controlled vocabulary, processed against
a pool whose rows all carry a nonempty proper title: only the single
highest-scoring candidate is retained; a suggestion is produced from a fresh
state exactly when the best score is at or above the fixed threshold 4/5 = 0.8
(so a score of exactly 0.8 is accepted and any smaller score, such as 0.7999,
is rejected); across rows the stored match for a `(proper_title, entity)` key
is replaced only by a strictly better score; every emitted confidence score is
the similarity ratio rounded to 3 decimals.  The concrete runs witness the
boundary: a pair scoring exactly 4/5 is accepted, one scoring 7/9 < 0.8 is
rejected. -/
theorem fuzzy_matcher_threshold_best_dedup (validEntities : List String)
    (db : List DbRow) (st : List ((String × String) × MatchInfo))
    (row : DriRow) (driRows : List DriRow)
    (hq : row.norm_title ≠ "") (he : row.entity ≠ "") (hv : row.entity ∈ validEntities)
    (hdb : ∀ r ∈ db, r.proper_title ≠ "") :
    ((bestMatch row.norm_title (driCandidates db row.norm_title)).1 < mkRat 4 5 →
      processDriRow validEntities db (mkRat 4 5) st row = st) ∧
    (mkRat 4 5 ≤ (bestMatch row.norm_title (driCandidates db row.norm_title)).1 →
      ∃ c, (bestMatch row.norm_title (driCandidates db row.norm_title)).2 = some c ∧
        c ∈ driCandidates db row.norm_title ∧
        (bestMatch row.norm_title (driCandidates db row.norm_title)).1 = scoreOf row.norm_title c ∧
        (∀ c' ∈ driCandidates db row.norm_title,
          scoreOf row.norm_title c' ≤ scoreOf row.norm_title c) ∧
        processDriRow validEntities db (mkRat 4 5) st row =
          (match dictLookup st (c.proper_title, row.entity) with
           | none =>
             dictInsert st (c.proper_title, row.entity)
               ⟨scoreOf row.norm_title c, row.document_title, c.symbol, c.norm_title⟩
           | some old =>
             if old.score < scoreOf row.norm_title c then
               dictInsert st (c.proper_title, row.entity)
                 ⟨scoreOf row.norm_title c, row.document_title, c.symbol, c.norm_title⟩
             else st)) ∧
    (processDriRow validEntities db (mkRat 4 5) [] row ≠ [] ↔
      mkRat 4 5 ≤ (bestMatch row.norm_title (driCandidates db row.norm_title)).1) ∧
    (∀ s ∈ match_dri_to_proper_titles validEntities db driRows,
      ∃ kv ∈ driRows.foldl (processDriRow validEntities db (mkRat 4 5)) [],
        s = ⟨kv.1.1, kv.1.2, roundTo3 kv.2.score, kv.2.dri_title, kv.2.matched_symbol,
          roundTo3 kv.2.score⟩) ∧
    processDriRow ["ENT"] [⟨"PT", "abcdx", "S/1"⟩] (mkRat 4 5) [] ⟨"abcde", "ENT", "Orig"⟩
      = [(("PT", "ENT"), ⟨mkRat 4 5, "Orig", "S/1", "abcdx"⟩)] ∧
    fuzzy_match_score "abcde".data "abcdx".data = mkRat 4 5 ∧
    processDriRow ["ENT"] [⟨"PT", "abcdefgzz", "S/1"⟩] (mkRat 4 5) []
      ⟨"abcdefgyy", "ENT", "Orig"⟩ = [] ∧
    fuzzy_match_score "abcdefgyy".data "abcdefgzz".data = mkRat 7 9 ∧
    (mkRat 4 5 : Rat) = 4 / 5 := by
  have hreject : ∀ st' : List ((String × String) × MatchInfo),
      (bestMatch row.norm_title (driCandidates db row.norm_title)).1 < mkRat 4 5 →
      processDriRow validEntities db (mkRat 4 5) st' row = st' := by
    intro st' hlt
    rw [processDriRow, if_neg hq, if_neg he, if_pos hv]
    cases hbc : (bestMatch row.norm_title (driCandidates db row.norm_title)).2 with
    | none => rfl
    | some c =>
      dsimp only
      rw [if_neg]
      intro hcond
      exact absurd hcond.1 (not_le_of_lt hlt)
  have haccept : ∀ st' : List ((String × String) × MatchInfo),
      mkRat 4 5 ≤ (bestMatch row.norm_title (driCandidates db row.norm_title)).1 →
      ∃ c, (bestMatch row.norm_title (driCandidates db row.norm_title)).2 = some c ∧
        c ∈ driCandidates db row.norm_title ∧
        (bestMatch row.norm_title (driCandidates db row.norm_title)).1
          = scoreOf row.norm_title c ∧
        (∀ c' ∈ driCandidates db row.norm_title,
          scoreOf row.norm_title c' ≤ scoreOf row.norm_title c) ∧
        processDriRow validEntities db (mkRat 4 5) st' row =
          (match dictLookup st' (c.proper_title, row.entity) with
           | none =>
             dictInsert st' (c.proper_title, row.entity)
               ⟨scoreOf row.norm_title c, row.document_title, c.symbol, c.norm_title⟩
           | some old =>
             if old.score < scoreOf row.norm_title c then
               dictInsert st' (c.proper_title, row.entity)
                 ⟨scoreOf row.norm_title c, row.document_title, c.symbol, c.norm_title⟩
             else st') := by
    intro st' hth
    cases hbc : (bestMatch row.norm_title (driCandidates db row.norm_title)).2 with
    | none =>
      have h0 := bestMatch_none row.norm_title (driCandidates db row.norm_title) hbc
      rw [h0] at hth
      exact absurd hth (by decide)
    | some c =>
      obtain ⟨hmem, hsc⟩ := bestMatch_some row.norm_title (driCandidates db row.norm_title) c hbc
      have hpt : c.proper_title ≠ "" := hdb c (driCandidates_subset db row.norm_title c hmem)
      refine ⟨c, rfl, hmem, hsc, ?_, ?_⟩
      · intro c' hc'
        have hle := bestMatch_ub row.norm_title (driCandidates db row.norm_title) c' hc'
        rw [hsc] at hle
        exact hle
      · rw [processDriRow, if_neg hq, if_neg he, if_pos hv, hbc]
        dsimp only
        rw [if_pos ⟨hth, hpt⟩, hsc]
  refine ⟨hreject st, haccept st, ?_, ?_, by decide, by decide, by decide, by decide,
    by norm_num [Rat.mkRat_eq_div]⟩
  · constructor
    · intro hne
      by_contra hth
      exact hne (hreject [] (lt_of_not_le hth))
    · intro hth
      obtain ⟨c, hbc, hmem, hsc, hub, heq⟩ := haccept [] hth
      rw [heq]
      simp [dictLookup, dictInsert]
  · intro s hs
    rw [match_dri_to_proper_titles] at hs
    obtain ⟨kv, hkv, hs2⟩ := List.mem_map.mp hs
    exact ⟨kv, hkv, hs2.symm⟩

set_option maxRecDepth 400000 in
theorem fuzzy_matcher_threshold_best_dedup_witness :
    processDriRow ["ENT"] [⟨"PT", "abcdx", "S/1"⟩] (mkRat 4 5) [] ⟨"abcde", "ENT", "Orig"⟩ ≠ [] :=
  ((fuzzy_matcher_threshold_best_dedup ["ENT"] [⟨"PT", "abcdx", "S/1"⟩] []
      ⟨"abcde", "ENT", "Orig"⟩ [] (by decide) (by decide) (by decide)
      (by decide)).2.2.1).mpr (by decide)

set_option maxRecDepth 1000000 in
theorem resolution_extraction_failing_eval :
    extract_resolution_refs_from_note
        "Recalling General Assembly resolutions 78/70 and 79/1".data
      = [⟨"General Assembly", "78/70 A", "A/RES/78/70 A"⟩,
         ⟨"General Assembly", "79/1", "A/RES/79/1"⟩] ∧
    extract_resolution_symbols_from_notes
        (NotesInput.listInput ["Recalling General Assembly resolutions 78/70 and 79/1".data])
      = ["A/RES/78/70 A", "A/RES/79/1"] ∧
    ("A/RES/78/70 A" : String) ≠ "A/RES/78/70" := by
  refine ⟨by decide, by decide, by decide⟩
